import Mathlib

/-!
ParallelImageProcessing.cpp: partition, distribute, recombine.

A shallow embedding of `main` of `src/ParallelImageProcessing.cpp`.

Conventions of the embedding.

* C++ `int` values that are sizes (`rows`, `cols`, `size`, `rank`, byte counts) are natural
  numbers: `image.rows`, `image.cols` are never negative and `MPI_Comm_size` gives at least 1.
  The arithmetic is the exact one, so the model describes the runs in which no `int`
  expression overflows (signed overflow has no defined behaviour in C++).
* Operator inputs (`choice`, thresholds, kernel sizes) are integers.  The `double`
  `scale_factor` is kept as an exact fraction.
* A byte buffer is a `List Nat`; a `cv::Mat` is its shape together with its buffer.
* Every process runs the same `main`; `round` is the body of the `switch` as one rank runs
  it and `groupRound` puts the ranks together through the collective calls.
* A run that throws (an OpenCV precondition) or touches memory outside a buffer is an
  `Except.error`.
* The pixel arithmetic of the OpenCV routines is a parameter (`Pixels`); their shape rules
  and channel preconditions are those of the library.  What the library does with a
  parameter value it rejects (an even kernel size) or with an empty source is not
  modelled: the routine is taken to return a result of its usual shape.
* Of the console output the two error reports are kept, and the reads of
  `image_operations[choice - 1]` that rank 0 makes at lines 59 and 279; prompts and
  progress messages are left out.
* When the image does not load, rank 0 leaves `main` (line 28); this is the error of
  `setup`.
-/

namespace PIP

deriving instance DecidableEq for Except

/-! ## Images -/

/-- A `cv::Mat` of 8-bit elements: shape and row-major byte buffer. -/
structure Mat where
  rows : Nat
  cols : Nat
  channels : Nat
  data : List Nat
deriving DecidableEq, Repr

/-- The invariant `buffer.size == rows * cols * c`. -/
def Mat.wf (m : Mat) : Prop := m.data.length = m.rows * m.cols * m.channels

instance (m : Mat) : Decidable m.wf := by unfold Mat.wf; infer_instance

/-- A `Mat(rows, cols, type)` whose byte `i` is `fill i`. -/
def Mat.create (rows cols channels : Nat) (fill : Nat → Nat) : Mat :=
  ⟨rows, cols, channels, (List.range (rows * cols * channels)).map fill⟩

/-- The matrix of `Mat::zeros(rows, cols, type)`. -/
def Mat.zeros (rows cols channels : Nat) : Mat :=
  Mat.create rows cols channels (fun _ => 0)

/-- A default-constructed `Mat`: no data; `channels()` reports 1 and `type()` is `CV_8UC1`. -/
def Mat.noData : Mat := ⟨0, 0, 1, []⟩

/-! ## Block partition (lines 40-43) -/

/-- Line 40: `int local_rows = rows / size;`. -/
def local_rows (rows size : Nat) : Nat := rows / size

/-- Line 41: `int local_image_size = local_rows * cols;`. -/
def local_image_size (rows cols size : Nat) : Nat := local_rows rows size * cols

/-- `MPI_Scatter` from the root: rank `i` receives the `sendcount` bytes that start at
byte `i * sendcount` of the root's buffer. -/
def MPI_Scatter (sendbuf : List Nat) (sendcount size : Nat) : Except String (List (List Nat)) :=
  if sendbuf.length < size * sendcount then
    throw "MPI_Scatter: read past the end of the send buffer"
  else
    pure ((List.range size).map (fun i => (sendbuf.drop (i * sendcount)).take sendcount))

/-- A row block: first row and number of rows. -/
structure Block where
  startRow : Nat
  rowCount : Nat
deriving DecidableEq, Repr

/-- The row blocks the scatter of line 43 hands out: rank `i` gets `local_rows` rows, and
its bytes start at byte `i * (local_image_size * 3)`, which is row `i * local_rows`. -/
def partition (rows size : Nat) : List Block :=
  (List.range size).map (fun i => ⟨i * local_rows rows size, local_rows rows size⟩)

/-- Lines 19-43: load check, broadcast of the dimensions, scatter into `local_image`s
(one per rank, in rank order). -/
def setup (image : Mat) (size : Nat) : Except String (List Mat) :=
  if image.rows = 0 ∨ image.cols = 0 then
    throw "Failed to load image"
  else do
    let chunks ← MPI_Scatter image.data (local_image_size image.rows image.cols size * 3) size
    pure (chunks.map (fun d => ⟨local_rows image.rows size, image.cols, 3, d⟩))

/-! ## The OpenCV routines -/

/-- Pixel arithmetic of the library routines and the content of fresh memory.  Each
routine field gives byte `i` of the result from its parameters and its source. -/
structure Pixels where
  blur : Int → Mat → Nat → Nat
  gray : Mat → Nat → Nat
  hsv : Mat → Nat → Nat
  lab : Mat → Nat → Nat
  canny : Int → Int → Mat → Nat → Nat
  scaled : Int → Nat → Mat → Nat → Nat
  equalized : Mat → Nat → Nat
  thresholded : Int → Mat → Nat → Nat
  adaptive : Int → Int → Mat → Nat → Nat
  median : Int → Mat → Nat → Nat
  uninit : Nat → Nat

/-- The conversion codes the program passes to `cvtColor`. -/
inductive ColorConversionCodes where
  | COLOR_BGR2GRAY
  | COLOR_BGR2HSV
  | COLOR_BGR2Lab
deriving DecidableEq, Repr

/-- `GaussianBlur(src, dst, Size(k, k), 0, 0)`: `dst` has the shape of `src`. -/
def GaussianBlur (P : Pixels) (src : Mat) (ksize : Int) : Mat :=
  Mat.create src.rows src.cols src.channels (P.blur ksize src)

/-- `cvtColor(src, dst, code)` for the three codes used: the source must have 3 or 4
channels; `dst` has 1 channel for `COLOR_BGR2GRAY` and 3 otherwise. -/
def cvtColor (P : Pixels) (src : Mat) (code : ColorConversionCodes) : Except String Mat :=
  if src.channels = 3 ∨ src.channels = 4 then
    match code with
    | .COLOR_BGR2GRAY => pure (Mat.create src.rows src.cols 1 (P.gray src))
    | .COLOR_BGR2HSV => pure (Mat.create src.rows src.cols 3 (P.hsv src))
    | .COLOR_BGR2Lab => pure (Mat.create src.rows src.cols 3 (P.lab src))
  else
    throw "cvtColor: invalid number of channels in input image"

/-- `Canny(src, edges, threshold1, threshold2, 3)`: a single-channel edge map of the
size of `src`. -/
def Canny (P : Pixels) (src : Mat) (threshold1 threshold2 : Int) : Mat :=
  Mat.create src.rows src.cols 1 (P.canny threshold1 threshold2 src)

/-- A scale factor read as a `double`, kept as the exact fraction `num / den`. -/
structure Factor where
  num : Int
  den : Nat
deriving DecidableEq, Repr

/-- The rational number a factor stands for. -/
def Factor.toRat (f : Factor) : ℚ := (f.num : ℚ) / (f.den : ℚ)

/-- `cvRound` of the fraction `a / d`: nearest integer, ties to the even one. -/
def cvRound (a : Int) (d : Nat) : Int :=
  let q := a / (d : Int)
  let r := a % (d : Int)
  if 2 * r < d then q
  else if (d : Int) < 2 * r then q + 1
  else if q % 2 = 0 then q else q + 1

/-- `resize(src, dst, Size(), f, f)`: `f` must be positive and the target size
`(cvRound(cols * f), cvRound(rows * f))` must not be empty. -/
def resize (P : Pixels) (src : Mat) (f : Factor) : Except String Mat :=
  let r := cvRound ((src.rows : Int) * f.num) f.den
  let c := cvRound ((src.cols : Int) * f.num) f.den
  if f.num ≤ 0 ∨ f.den = 0 then throw "resize: the scale factor is not positive"
  else if r ≤ 0 ∨ c ≤ 0 then throw "resize: empty target size"
  else pure (Mat.create r.toNat c.toNat src.channels (P.scaled f.num f.den src))

/-- `equalizeHist(src, dst)`: the source must be `CV_8UC1`; `dst` has its shape. -/
def equalizeHist (P : Pixels) (src : Mat) : Except String Mat :=
  if src.channels = 1 then pure (Mat.create src.rows src.cols 1 (P.equalized src))
  else throw "equalizeHist: the source is not CV_8UC1"

/-- `threshold(src, dst, thresh, 255, THRESH_BINARY)`: `dst` has the shape of `src`. -/
def threshold (P : Pixels) (src : Mat) (thresh : Int) : Mat :=
  Mat.create src.rows src.cols src.channels (P.thresholded thresh src)

/-- `adaptiveThreshold(src, dst, 255, ADAPTIVE_THRESH_MEAN_C, THRESH_BINARY, blockSize,
offset)`: the source must be `CV_8UC1`; `dst` has its shape. -/
def adaptiveThreshold (P : Pixels) (src : Mat) (blockSize offset : Int) : Except String Mat :=
  if src.channels = 1 then
    pure (Mat.create src.rows src.cols 1 (P.adaptive blockSize offset src))
  else throw "adaptiveThreshold: the source is not CV_8UC1"

/-- `medianBlur(src, dst, ksize)`: `dst` has the shape of `src`. -/
def medianBlur (P : Pixels) (src : Mat) (ksize : Int) : Mat :=
  Mat.create src.rows src.cols src.channels (P.median ksize src)

/-- The conversion of the `double` `n * f` to `int`: truncation toward zero. -/
def truncScaled (n : Nat) (f : Factor) : Int :=
  Int.tdiv ((n : Int) * f.num) (f.den : Int)

/-- The conversion of the `double` `n * f * f` to `int`: truncation toward zero. -/
def truncScaled2 (n : Nat) (f : Factor) : Int :=
  Int.tdiv ((n : Int) * f.num * f.num) ((f.den : Int) * (f.den : Int))

/-- `Mat(rows, cols, type)` with `int` arguments that may be negative: the constructor
rejects a negative dimension. -/
def Mat.alloc (rows cols : Int) (channels : Nat) (fill : Nat → Nat) : Except String Mat :=
  if rows < 0 ∨ cols < 0 then throw "Mat: negative dimension"
  else pure (Mat.create rows.toNat cols.toNat channels fill)

/-! ## One round on one rank (lines 64-272) -/

/-- Element types of the collective calls. -/
inductive MPI_Datatype where
  | MPI_INT
  | MPI_DOUBLE
  | MPI_BYTE
  | MPI_UNSIGNED_CHAR
deriving DecidableEq, Repr

/-- The signature of a collective call, root 0 throughout. -/
inductive Collective where
  | Bcast (count : Nat) (datatype : MPI_Datatype)
  | Gather (sendcount : Nat) (sendtype : MPI_Datatype) (recvcount : Nat)
      (recvtype : MPI_Datatype)
  | Gatherv (sendcount : Nat) (sendtype : MPI_Datatype) (recvtype : MPI_Datatype)
deriving DecidableEq, Repr

/-- The gather a rank enters at the end of the round, with the buffers it passes. -/
inductive GatherCall where
  | skip
  | fixed (sendbuf : List Nat) (count : Nat) (datatype : MPI_Datatype)
  | varying (sendbuf : List Nat) (sendcount : Nat) (recvcounts displs : List Nat)
deriving DecidableEq, Repr

/-- The send buffer of a gather. -/
def GatherCall.sendbuf : GatherCall → List Nat
  | .skip => []
  | .fixed b _ _ => b
  | .varying b _ _ _ => b

/-- The send count of a gather. -/
def GatherCall.sendcount : GatherCall → Nat
  | .skip => 0
  | .fixed _ c _ => c
  | .varying _ c _ _ => c

/-- The signature of the gather, as a list of zero or one collective call. -/
def GatherCall.signature : GatherCall → List Collective
  | .skip => []
  | .fixed _ c t => [.Gather c t c t]
  | .varying _ c _ _ => [.Gatherv c .MPI_UNSIGNED_CHAR .MPI_UNSIGNED_CHAR]

/-- What a process knows after the broadcasts of lines 37-38. -/
structure Env where
  rank : Nat
  size : Nat
  rows : Nat
  cols : Nat
deriving DecidableEq, Repr

/-- What the operator types in one round.  `p1` is the first integer parameter of the
operation (`blur_radius`, `threshold1`, `conversion_code`, `threshold_value`, `blockSize`,
`kernel_size`), `p2` the second (`threshold2`, `offset`).  After the `MPI_Bcast`s every
rank holds these values. -/
structure RoundInput where
  choice : Int
  p1 : Int
  p2 : Int
  scale_factor : Factor
  output_filename : String
deriving DecidableEq, Repr

/-- The state of a rank when it leaves the `switch`. -/
structure RankStep where
  local_image : Mat
  processed_image : Mat
  bcasts : List Collective
  gather : GatherCall
  console : List String
deriving DecidableEq, Repr

/-- The collective calls of the round after the broadcast of `choice`, in call order. -/
def RankStep.calls (s : RankStep) : List Collective := s.bcasts ++ s.gather.signature

/-- Lines 114-117 and 154-157: `displs[0] = 0;` and the loop
`for (i = 1; i < size; i++) displs[i] = displs[i - 1] + recvcounts[i - 1];`. -/
def displsLoop (recvcounts : List Nat) (size : Nat) (displs : List Nat) : List Nat :=
  (List.range' 1 (size - 1)).foldl
    (fun d i => d.set i (d.getD (i - 1) 0 + recvcounts.getD (i - 1) 0))
    (displs.set 0 0)

/-- The `displs` vector a rank passes to `MPI_Gatherv`: all zero, filled by the loop on
rank 0 only. -/
def displs (rank size : Nat) (recvcounts : List Nat) : List Nat :=
  if rank = 0 then displsLoop recvcounts size (List.replicate size 0)
  else List.replicate size 0

/-- The body of the `switch (choice)` as the process `e.rank` runs it on its
`local_image`. -/
def round (P : Pixels) (e : Env) (inp : RoundInput) (local_image : Mat) :
    Except String RankStep :=
  let lis := local_image_size e.rows e.cols e.size
  if inp.choice = 1 then
    let blurred_image := GaussianBlur P local_image inp.p1
    let processed_image := if e.rank = 0 then Mat.create e.rows e.cols 3 P.uninit else Mat.noData
    pure ⟨local_image, processed_image, [.Bcast 1 .MPI_INT],
      .fixed blurred_image.data (lis * 3) .MPI_BYTE, []⟩
  else if inp.choice = 2 then do
    let gray_image ← cvtColor P local_image .COLOR_BGR2GRAY
    let edges := Canny P gray_image inp.p1 inp.p2
    let recvcounts := List.replicate e.size lis
    let processed_image := if e.rank = 0 then Mat.zeros e.rows e.cols 1 else Mat.noData
    pure ⟨local_image, processed_image, [.Bcast 1 .MPI_INT, .Bcast 1 .MPI_INT],
      .varying edges.data (lis * 1) recvcounts (displs e.rank e.size recvcounts), []⟩
  else if inp.choice = 3 then do
    let scaled_image ← resize P local_image inp.scale_factor
    let processed_image ←
      if e.rank = 0 then
        Mat.alloc (truncScaled e.rows inp.scale_factor) (truncScaled e.cols inp.scale_factor)
          3 P.uninit
      else pure Mat.noData
    pure ⟨local_image, processed_image, [.Bcast 1 .MPI_DOUBLE],
      .fixed scaled_image.data (truncScaled2 (lis * 3) inp.scale_factor).toNat .MPI_BYTE, []⟩
  else if inp.choice = 4 then do
    let local_image ← cvtColor P local_image .COLOR_BGR2GRAY
    let equalized_image ← equalizeHist P local_image
    let recvcounts := List.replicate e.size lis
    let processed_image := if e.rank = 0 then Mat.zeros e.rows e.cols 1 else Mat.noData
    pure ⟨local_image, processed_image, [],
      .varying equalized_image.data (lis * 1) recvcounts (displs e.rank e.size recvcounts), []⟩
  else if inp.choice = 5 then do
    let converted_image ←
      if inp.p1 = 0 then cvtColor P local_image .COLOR_BGR2GRAY
      else if inp.p1 = 1 then cvtColor P local_image .COLOR_BGR2HSV
      else if inp.p1 = 2 then cvtColor P local_image .COLOR_BGR2Lab
      else pure Mat.noData
    let console :=
      if inp.p1 = 0 ∨ inp.p1 = 1 ∨ inp.p1 = 2 then []
      else if e.rank = 0 then ["Invalid conversion code!"] else []
    let processed_image :=
      if e.rank = 0 then Mat.create e.rows e.cols converted_image.channels P.uninit
      else Mat.noData
    pure ⟨local_image, processed_image, [.Bcast 1 .MPI_INT],
      .fixed converted_image.data (lis * converted_image.channels) .MPI_BYTE, console⟩
  else if inp.choice = 6 then do
    let local_image ←
      if local_image.channels > 1 then cvtColor P local_image .COLOR_BGR2GRAY
      else pure local_image
    let global_thresholded := threshold P local_image inp.p1
    let processed_image := if e.rank = 0 then Mat.create e.rows e.cols 1 P.uninit else Mat.noData
    pure ⟨local_image, processed_image, [.Bcast 1 .MPI_INT],
      .fixed global_thresholded.data lis .MPI_BYTE, []⟩
  else if inp.choice = 7 then do
    let local_image ←
      if local_image.channels > 1 then cvtColor P local_image .COLOR_BGR2GRAY
      else pure local_image
    let local_thresholded ← adaptiveThreshold P local_image inp.p1 inp.p2
    let processed_image := if e.rank = 0 then Mat.create e.rows e.cols 1 P.uninit else Mat.noData
    pure ⟨local_image, processed_image, [.Bcast 1 .MPI_INT, .Bcast 1 .MPI_INT],
      .fixed local_thresholded.data lis .MPI_BYTE, []⟩
  else if inp.choice = 8 then
    let filtered_image := medianBlur P local_image inp.p1
    let processed_image := if e.rank = 0 then Mat.create e.rows e.cols 3 P.uninit else Mat.noData
    pure ⟨local_image, processed_image, [.Bcast 1 .MPI_INT],
      .fixed filtered_image.data (lis * 3) .MPI_BYTE, []⟩
  else
    pure ⟨local_image, Mat.noData, [], .skip,
      if e.rank = 0 then ["Invalid choice!"] else []⟩

/-! ## The gathers and the round of the whole group -/

/-- Overwrite `buf` from byte `off` on with `data`. -/
def writeAt (buf : List Nat) (off : Nat) (data : List Nat) : List Nat :=
  buf.take off ++ data ++ buf.drop (off + data.length)

/-- The copies of `MPI_Gather` at the root: the first `count` bytes of the send buffer
of rank `i` go to byte `i * count` of the receive buffer. -/
def gatherInto (count : Nat) : Nat → List (List Nat) → List Nat → List Nat
  | _, [], recvbuf => recvbuf
  | i, s :: rest, recvbuf =>
    gatherInto count (i + 1) rest (writeAt recvbuf (i * count) (s.take count))

/-- `MPI_Gather` with equal send and receive count, `sendbufs` in rank order.  Reading
`count` bytes from a shorter send buffer, or writing past the receive buffer, is an
error. -/
def MPI_Gather (sendbufs : List (List Nat)) (count : Nat) (recvbuf : List Nat) :
    Except String (List Nat) :=
  if sendbufs.any (fun s => s.length < count) then
    throw "MPI_Gather: read past the end of a send buffer"
  else if recvbuf.length < sendbufs.length * count then
    throw "MPI_Gather: write past the end of the receive buffer"
  else pure (gatherInto count 0 sendbufs recvbuf)

/-- The copies of `MPI_Gatherv` at the root: `recvcounts[i]` bytes of rank `i` go to byte
`displs[i]` of the receive buffer. -/
def gathervInto : List (List Nat) → List Nat → List Nat → List Nat → List Nat
  | s :: rest, c :: cs, d :: ds, recvbuf =>
    gathervInto rest cs ds (writeAt recvbuf d (s.take c))
  | _, _, _, recvbuf => recvbuf

/-- The bounds `MPI_Gatherv` relies on: every rank sends what the root expects from it,
has that many bytes, and its slot lies inside the receive buffer. -/
def gathervFits (len : Nat) : List (List Nat × Nat) → List Nat → List Nat → Bool
  | (s, sc) :: rest, c :: cs, d :: ds =>
    sc = c && c ≤ s.length && d + c ≤ len && gathervFits len rest cs ds
  | [], _, _ => true
  | _, _, _ => false

/-- `MPI_Gatherv`, `sends` being the send buffer and send count of each rank in rank
order. -/
def MPI_Gatherv (sends : List (List Nat × Nat)) (recvcounts displs recvbuf : List Nat) :
    Except String (List Nat) :=
  if gathervFits recvbuf.length sends recvcounts displs then
    pure (gathervInto (sends.map Prod.fst) recvcounts displs recvbuf)
  else throw "MPI_Gatherv: counts or displacements do not fit the buffers"

/-- Every rank runs the `switch` on its own `local_image`; ranks count up from `r`. -/
def roundAll (P : Pixels) (size rows cols : Nat) (inp : RoundInput) :
    Nat → List Mat → Except String (List RankStep)
  | _, [] => pure []
  | r, l :: ls => do
    let s ← round P ⟨r, size, rows, cols⟩ inp l
    let ss ← roundAll P size rows cols inp (r + 1) ls
    pure (s :: ss)

/-- One round of the group: the `switch` on every rank, then the gather the root entered.
The result is the `local_image` of every rank and the `processed_image` of rank 0. -/
def groupRound (P : Pixels) (size rows cols : Nat) (inp : RoundInput) (locals : List Mat) :
    Except String (List Mat × Mat) := do
  let steps ← roundAll P size rows cols inp 0 locals
  match steps with
  | [] => throw "empty process group"
  | root :: _ =>
    match root.gather with
    | .skip => pure (steps.map (fun s => s.local_image), root.processed_image)
    | .fixed _ count _ => do
      let data ← MPI_Gather (steps.map (fun s => s.gather.sendbuf)) count
        root.processed_image.data
      pure (steps.map (fun s => s.local_image),
        ⟨root.processed_image.rows, root.processed_image.cols, root.processed_image.channels,
          data⟩)
    | .varying _ _ recvcounts displs => do
      let data ← MPI_Gatherv (steps.map (fun s => (s.gather.sendbuf, s.gather.sendcount)))
        recvcounts displs root.processed_image.data
      pure (steps.map (fun s => s.local_image),
        ⟨root.processed_image.rows, root.processed_image.cols, root.processed_image.channels,
          data⟩)

/-! ## The session loop (lines 51-282) -/

/-- Lines 45-49: the names of the operations, an array of 8 strings. -/
def image_operations : List String :=
  ["Gaussian Blur", "Edge Detection", "Image Scaling", "Histogram Equalization",
    "Color Space Conversion", "Global Thresholding", "Local Thresholding", "Median"]

/-- The read `image_operations[choice - 1]` that rank 0 makes at line 59, before the
broadcast of `choice`, and again at line 279: an index outside the array is a read
outside the object. -/
def operationName (choice : Int) : Except String String :=
  if choice - 1 < 0 then throw "image_operations[choice - 1]: read outside the array"
  else
    match image_operations[(choice - 1).toNat]? with
    | some name => pure name
    | none => throw "image_operations[choice - 1]: read outside the array"

/-- Line 278 on rank 0, `imwrite(output_filename, processed_image)`: the library rejects
an image without data; otherwise the file gets the image. -/
def imwrite (filename : String) (img : Mat) : Except String (String × Mat) :=
  if img.rows = 0 ∨ img.cols = 0 then throw "imwrite: the image is empty"
  else pure (filename, img)

/-- What rank 0 leaves behind in a round it completes: the name it echoed, its error
reports and the file it wrote. -/
structure RoundLog where
  choice : Int
  name : String
  console : List String
  written : String × Mat
deriving DecidableEq, Repr

/-- The error reports of rank 0 in one round. -/
def report (P : Pixels) (size rows cols : Nat) (inp : RoundInput) (local_image : Mat) :
    List String :=
  match round P ⟨0, size, rows, cols⟩ inp local_image with
  | .ok s => s.console
  | .error _ => []

/-- The `do { ... } while (choice);` loop.  The list holds what the operator has typed so
far, one `RoundInput` per iteration.  Per iteration: the echo of line 59 on rank 0, the
round of the group (lines 64-272), `imwrite` and the echo of lines 278-279 on rank 0,
then the test `while (choice)`. -/
def session (P : Pixels) (size rows cols : Nat) :
    List RoundInput → List Mat → Except String (List RoundLog)
  | [], _ => pure []
  | inp :: rest, locals => do
    let name ← operationName inp.choice
    let (locals', processed_image) ← groupRound P size rows cols inp locals
    let written ← imwrite inp.output_filename processed_image
    let _ ← operationName inp.choice
    let log : RoundLog :=
      ⟨inp.choice, name, report P size rows cols inp (locals.headD Mat.noData), written⟩
    if inp.choice ≠ 0 then do
      let more ← session P size rows cols rest locals'
      pure (log :: more)
    else pure [log]

/-- The whole program on a loaded image. -/
def run (P : Pixels) (image : Mat) (size : Nat) (inputs : List RoundInput) :
    Except String (List RoundLog) := do
  let locals ← setup image size
  session P size image.rows image.cols inputs locals

/-! ## Sample data -/

/-- Pixel routines that copy their source byte by byte (a blur or a median of kernel
size 1 does), with 7 in fresh memory. -/
def copyPixels : Pixels where
  blur := fun _ src i => src.data.getD i 0
  gray := fun src i => src.data.getD (3 * i) 0
  hsv := fun src i => src.data.getD i 0
  lab := fun src i => src.data.getD i 0
  canny := fun _ _ src i => src.data.getD i 0
  scaled := fun _ _ src i => src.data.getD i 0
  equalized := fun src i => src.data.getD i 0
  thresholded := fun _ src i => src.data.getD i 0
  adaptive := fun _ _ src i => src.data.getD i 0
  median := fun _ src i => src.data.getD i 0
  uninit := fun _ => 7

/-- A 4 x 1 colour image. -/
def image4 : Mat := ⟨4, 1, 3, [1, 2, 3, 4, 5, 6, 7, 8, 9, 10, 11, 12]⟩

/-- A 3 x 1 colour image. -/
def image3 : Mat := ⟨3, 1, 3, [1, 2, 3, 4, 5, 6, 7, 8, 9]⟩

/-- A 3 x 3 colour image. -/
def image9 : Mat := ⟨3, 3, 3, List.range 27⟩

/-- A 1 x 1 colour image. -/
def image1 : Mat := ⟨1, 1, 3, [10, 20, 30]⟩

/-- A round input with the given choice and first parameter. -/
def mkInput (choice p1 : Int) : RoundInput := ⟨choice, p1, 0, ⟨1, 2⟩, "out.jpg"⟩

/-- A 100 x 2 colour image. -/
def image100 : Mat := ⟨100, 2, 3, List.replicate 600 0⟩

/-- The choice "Image Scaling" with the factor 0.5. -/
def halfScale : RoundInput := ⟨3, 0, 0, ⟨1, 2⟩, "out.jpg"⟩

/-- A 6 x 3 colour image. -/
def image18 : Mat := ⟨6, 3, 3, List.range 54⟩

/-! ## Theorems -/

theorem partition_getElem? (rows size i : Nat) (hi : i < size) :
    (partition rows size)[i]? = some ⟨i * (rows / size), rows / size⟩ := by
  simp [partition, local_rows, List.getElem?_map, List.getElem?_range hi]

theorem partition_rowCount_sum (rows size : Nat) :
    ((partition rows size).map Block.rowCount).sum = size * (rows / size) := by
  simp [partition, local_rows, Function.comp_def]

theorem scatter_eq_partition (rows cols size : Nat) (data : List Nat)
    (hlen : data.length = rows * cols * 3) :
    MPI_Scatter data (local_image_size rows cols size * 3) size =
      .ok ((partition rows size).map (fun b =>
        (data.drop (b.startRow * (cols * 3))).take (b.rowCount * (cols * 3)))) := by
  have hle : size * (rows / size) ≤ rows := Nat.mul_div_le rows size
  have h2 : size * (local_image_size rows cols size * 3) ≤ data.length := by
    rw [hlen]
    have : size * (rows / size * cols * 3) = size * (rows / size) * (cols * 3) := by ring
    simp only [local_image_size, local_rows]
    rw [this, Nat.mul_assoc rows]
    exact Nat.mul_le_mul_right _ hle
  unfold MPI_Scatter
  rw [if_neg (by omega)]
  simp only [partition, local_image_size, local_rows, List.map_map, pure, Except.pure]
  congr 1
  apply List.map_congr_left
  intro i _
  simp only [Function.comp]
  rw [show i * (rows / size * cols * 3) = i * (rows / size) * (cols * 3) by ring,
    show rows / size * cols * 3 = rows / size * (cols * 3) by ring]

/-- C1: for `rows >= size > 0` the scatter lays out exactly `size` blocks of
`rows / size` rows each, block `i` starting at row `i * (rows / size)` (so at row 0 for
rank 0), each block starting where the previous one ends, no two overlapping, all inside
the image; the row counts add up to at most `rows`, and to `rows` exactly when `size`
divides `rows`. -/
theorem C1_partition (rows size cols : Nat) (hsize : 0 < size) (hrows : size ≤ rows) :
    (partition rows size).length = size ∧
    (∀ i, i < size →
      (partition rows size)[i]? = some ⟨i * (rows / size), rows / size⟩) ∧
    (∀ data : List Nat, data.length = rows * cols * 3 →
      MPI_Scatter data (local_image_size rows cols size * 3) size =
        .ok ((partition rows size).map (fun b =>
          (data.drop (b.startRow * (cols * 3))).take (b.rowCount * (cols * 3))))) ∧
    (∀ (i : Nat) (a b : Block), (partition rows size)[i]? = some a → (partition rows size)[i + 1]? = some b →
      b.startRow = a.startRow + a.rowCount) ∧
    (∀ (i j : Nat) (a b : Block), i < j → (partition rows size)[i]? = some a →
      (partition rows size)[j]? = some b → a.startRow + a.rowCount ≤ b.startRow) ∧
    (∀ b : Block, b ∈ partition rows size → 0 < b.rowCount ∧ b.startRow + b.rowCount ≤ rows) ∧
    ((partition rows size).map Block.rowCount).sum ≤ rows ∧
    (((partition rows size).map Block.rowCount).sum = rows ↔ rows % size = 0) := by
  have hle : size * (rows / size) ≤ rows := Nat.mul_div_le rows size
  have hlen : (partition rows size).length = size := by simp [partition]
  have hget : ∀ (i : Nat) (a : Block), (partition rows size)[i]? = some a →
      i < size ∧ a = ⟨i * (rows / size), rows / size⟩ := by
    intro i a h
    have hi : i < size := by
      have := (List.getElem?_eq_some_iff.mp h).1
      omega
    rw [partition_getElem? rows size i hi] at h
    exact ⟨hi, (Option.some.inj h).symm⟩
  refine ⟨hlen, fun i hi => partition_getElem? rows size i hi,
    fun data h => scatter_eq_partition rows cols size data h, ?_, ?_, ?_, ?_, ?_⟩
  · intro i a b ha hb
    obtain ⟨_, rfl⟩ := hget i a ha
    obtain ⟨_, rfl⟩ := hget (i + 1) b hb
    simp only
    ring
  · intro i j a b hij ha hb
    obtain ⟨_, rfl⟩ := hget i a ha
    obtain ⟨_, rfl⟩ := hget j b hb
    simp only
    calc i * (rows / size) + rows / size = (i + 1) * (rows / size) := by ring
      _ ≤ j * (rows / size) := Nat.mul_le_mul_right _ hij
  · intro b hb
    obtain ⟨i, hi⟩ := List.getElem?_of_mem hb
    obtain ⟨hi', rfl⟩ := hget i b hi
    simp only
    refine ⟨Nat.div_pos hrows hsize, ?_⟩
    calc i * (rows / size) + rows / size = (i + 1) * (rows / size) := by ring
      _ ≤ size * (rows / size) := Nat.mul_le_mul_right _ hi'
      _ ≤ rows := hle
  · rw [partition_rowCount_sum]; exact hle
  · rw [partition_rowCount_sum]
    constructor
    · intro h
      have := Nat.div_add_mod rows size
      omega
    · intro h
      have := Nat.div_add_mod rows size
      omega

/-- C1 at 5 rows, 1 column, on 2 workers. -/
theorem C1_partition_witness :
    (partition 5 2).length = 2 ∧
    (∀ i, i < 2 → (partition 5 2)[i]? = some ⟨i * (5 / 2), 5 / 2⟩) ∧
    (∀ data : List Nat, data.length = 5 * 1 * 3 →
      MPI_Scatter data (local_image_size 5 1 2 * 3) 2 =
        .ok ((partition 5 2).map (fun b =>
          (data.drop (b.startRow * (1 * 3))).take (b.rowCount * (1 * 3))))) ∧
    (∀ (i : Nat) (a b : Block), (partition 5 2)[i]? = some a →
      (partition 5 2)[i + 1]? = some b → b.startRow = a.startRow + a.rowCount) ∧
    (∀ (i j : Nat) (a b : Block), i < j → (partition 5 2)[i]? = some a →
      (partition 5 2)[j]? = some b → a.startRow + a.rowCount ≤ b.startRow) ∧
    (∀ b : Block, b ∈ partition 5 2 → 0 < b.rowCount ∧ b.startRow + b.rowCount ≤ 5) ∧
    ((partition 5 2).map Block.rowCount).sum ≤ 5 ∧
    (((partition 5 2).map Block.rowCount).sum = 5 ↔ 5 % 2 = 0) :=
  C1_partition 5 2 1 (by decide) (by decide)

/-! ### The displacement table -/

theorem displsFold_inv (rc d0 : List Nat) (k : Nat) (hk : k < d0.length) :
    ((List.range' 1 k).foldl
        (fun d i => d.set i (d.getD (i - 1) 0 + rc.getD (i - 1) 0)) (d0.set 0 0)).length
      = d0.length ∧
    ((List.range' 1 k).foldl
        (fun d i => d.set i (d.getD (i - 1) 0 + rc.getD (i - 1) 0)) (d0.set 0 0)).getD 0 0
      = 0 ∧
    ∀ i, 0 < i → i ≤ k →
      ((List.range' 1 k).foldl
          (fun d i => d.set i (d.getD (i - 1) 0 + rc.getD (i - 1) 0)) (d0.set 0 0)).getD i 0
        = ((List.range' 1 k).foldl
          (fun d i => d.set i (d.getD (i - 1) 0 + rc.getD (i - 1) 0)) (d0.set 0 0)).getD
            (i - 1) 0 + rc.getD (i - 1) 0 := by
  induction k with
  | zero =>
    refine ⟨by simp, ?_, fun i h1 h2 => by omega⟩
    simp [List.getD_eq_getElem?_getD, List.getElem?_set, hk]
  | succ k ih =>
    obtain ⟨hlen, h0, hrec⟩ := ih (by omega)
    rw [List.range'_concat, List.foldl_append]
    simp only [List.foldl_cons, List.foldl_nil, Nat.one_mul]
    generalize (List.range' 1 k).foldl
        (fun d i => d.set i (d.getD (i - 1) 0 + rc.getD (i - 1) 0)) (d0.set 0 0) = d at *
    have e : 1 + k - 1 = k := by omega
    rw [e]
    refine ⟨by simp [hlen], ?_, ?_⟩
    · rw [List.getD_eq_getElem?_getD, List.getElem?_set_ne (by omega),
        ← List.getD_eq_getElem?_getD]
      exact h0
    · intro i hi hik
      by_cases hi' : i = 1 + k
      · subst hi'
        rw [e, List.getD_eq_getElem?_getD (d.set _ _), List.getElem?_set_self (by omega),
          List.getD_eq_getElem?_getD (d.set _ _), List.getElem?_set_ne (by omega),
          ← List.getD_eq_getElem?_getD]
        rfl
      · rw [List.getD_eq_getElem?_getD (d.set _ _), List.getElem?_set_ne (by omega),
          List.getD_eq_getElem?_getD (d.set _ _), List.getElem?_set_ne (by omega),
          ← List.getD_eq_getElem?_getD, ← List.getD_eq_getElem?_getD]
        exact hrec i hi (by omega)

/-- The loop of lines 114-117 on any `recvcounts`: `displs[0] = 0` and
`displs[i] = displs[i-1] + recvcounts[i-1]` for `0 < i < size`. -/
theorem displsLoop_spec (rc : List Nat) (size : Nat) (hsize : 0 < size) :
    (displsLoop rc size (List.replicate size 0)).length = size ∧
    (displsLoop rc size (List.replicate size 0)).getD 0 0 = 0 ∧
    ∀ i, 0 < i → i < size →
      (displsLoop rc size (List.replicate size 0)).getD i 0 =
        (displsLoop rc size (List.replicate size 0)).getD (i - 1) 0 + rc.getD (i - 1) 0 := by
  have h := displsFold_inv rc (List.replicate size 0) (size - 1) (by simp; omega)
  unfold displsLoop
  refine ⟨by simpa using h.1, h.2.1, fun i h1 h2 => h.2.2 i h1 (by omega)⟩


/-! ### The `switch`, case by case -/

theorem cvtColor_gray (P : Pixels) (l : Mat) (hc : l.channels = 3) :
    cvtColor P l .COLOR_BGR2GRAY = .ok (Mat.create l.rows l.cols 1 (P.gray l)) := by
  simp [cvtColor, hc, pure, Except.pure]

theorem round_case2 (P : Pixels) (e : Env) (inp : RoundInput) (l : Mat)
    (h : inp.choice = 2) (hc : l.channels = 3) :
    round P e inp l = .ok ⟨l, if e.rank = 0 then Mat.zeros e.rows e.cols 1 else Mat.noData,
      [.Bcast 1 .MPI_INT, .Bcast 1 .MPI_INT],
      .varying (Canny P (Mat.create l.rows l.cols 1 (P.gray l)) inp.p1 inp.p2).data
        (local_image_size e.rows e.cols e.size * 1)
        (List.replicate e.size (local_image_size e.rows e.cols e.size))
        (displs e.rank e.size (List.replicate e.size (local_image_size e.rows e.cols e.size))),
      []⟩ := by
  simp [round, h, cvtColor_gray P l hc, bind, Except.bind, pure, Except.pure]

theorem round_case4 (P : Pixels) (e : Env) (inp : RoundInput) (l : Mat)
    (h : inp.choice = 4) (hc : l.channels = 3) :
    round P e inp l = .ok ⟨Mat.create l.rows l.cols 1 (P.gray l),
      if e.rank = 0 then Mat.zeros e.rows e.cols 1 else Mat.noData, [],
      .varying (Mat.create l.rows l.cols 1
          (P.equalized (Mat.create l.rows l.cols 1 (P.gray l)))).data
        (local_image_size e.rows e.cols e.size * 1)
        (List.replicate e.size (local_image_size e.rows e.cols e.size))
        (displs e.rank e.size (List.replicate e.size (local_image_size e.rows e.cols e.size))),
      []⟩ := by
  simp [round, h, cvtColor_gray P l hc, equalizeHist, Mat.create, bind, Except.bind, pure,
    Except.pure]

theorem mat_create_length (r c ch : Nat) (f : Nat → Nat) :
    (Mat.create r c ch f).data.length = r * c * ch := by
  simp [Mat.create]

theorem replicate_lis_sum_le (rows cols size : Nat) :
    (List.replicate size (local_image_size rows cols size)).sum ≤ rows * cols := by
  simp only [List.sum_replicate, smul_eq_mul, local_image_size, local_rows]
  calc size * (rows / size * cols) = size * (rows / size) * cols := by ring
    _ ≤ rows * cols := Nat.mul_le_mul_right _ (Nat.mul_div_le rows size)

theorem replicate_lis_sum_eq_iff (rows cols size : Nat) (hcols : 0 < cols) :
    (List.replicate size (local_image_size rows cols size)).sum = rows * cols ↔
      rows % size = 0 := by
  simp only [List.sum_replicate, smul_eq_mul, local_image_size, local_rows]
  rw [show size * (rows / size * cols) = size * (rows / size) * cols by ring]
  have hdm := Nat.div_add_mod rows size
  constructor
  · intro h
    have := Nat.eq_of_mul_eq_mul_right hcols h
    omega
  · intro h
    have : size * (rows / size) = rows := by omega
    rw [this]

/-- C3, as the code has it: in the variable-size gather of operations 2 and 4 the root
passes `recvcounts = [b, ..., b]` (`size` times `b = local_image_size`) and a table with
`displs[0] = 0` and `displs[i] = displs[i-1] + recvcounts[i-1]` for `0 < i < size`; the
output buffer it allocates has `rows * cols` bytes, which is at least `sum(recvcounts)`
and, for `cols > 0`, equal to it exactly when `size` divides `rows`. -/
theorem C3_displacements (P : Pixels) (size rows cols : Nat) (inp : RoundInput) (l : Mat)
    (hsize : 0 < size) (hop : inp.choice = 2 ∨ inp.choice = 4) (hc : l.channels = 3) :
    ∃ (s : RankStep) (sendbuf b d : List Nat),
      round P ⟨0, size, rows, cols⟩ inp l = .ok s ∧
      s.gather = .varying sendbuf (local_image_size rows cols size * 1) b d ∧
      b = List.replicate size (local_image_size rows cols size) ∧
      d.length = size ∧ d.getD 0 0 = 0 ∧
      (∀ i, 0 < i → i < size → d.getD i 0 = d.getD (i - 1) 0 + b.getD (i - 1) 0) ∧
      s.processed_image.data.length = rows * cols ∧
      b.sum ≤ s.processed_image.data.length ∧
      (0 < cols → (s.processed_image.data.length = b.sum ↔ rows % size = 0)) := by
  have hd := displsLoop_spec (List.replicate size (local_image_size rows cols size)) size hsize
  have hlen : (Mat.zeros rows cols 1).data.length = rows * cols := by
    simp [Mat.zeros, Mat.create]
  have hsum := replicate_lis_sum_le rows cols size
  have hiff : 0 < cols → ((Mat.zeros rows cols 1).data.length =
      (List.replicate size (local_image_size rows cols size)).sum ↔ rows % size = 0) := by
    intro hcols
    rw [hlen, eq_comm]
    exact replicate_lis_sum_eq_iff rows cols size hcols
  rcases hop with h | h
  · exact ⟨_, _, _, _, round_case2 P _ inp l h hc, rfl, rfl,
      by simpa [displs] using hd.1, by simpa [displs] using hd.2.1,
      by simpa [displs] using hd.2.2, by simpa using hlen, by simpa [hlen] using hsum,
      by simpa using hiff⟩
  · exact ⟨_, _, _, _, round_case4 P _ inp l h hc, rfl, rfl,
      by simpa [displs] using hd.1, by simpa [displs] using hd.2.1,
      by simpa [displs] using hd.2.2, by simpa using hlen, by simpa [hlen] using hsum,
      by simpa using hiff⟩

/-- C3 on a 3 x 1 block layout with 2 workers, edge detection. -/
theorem C3_displacements_witness :
    ∃ (s : RankStep) (sendbuf b d : List Nat),
      round copyPixels ⟨0, 2, 3, 1⟩ (mkInput 2 1) ⟨1, 1, 3, [1, 2, 3]⟩ = .ok s ∧
      s.gather = .varying sendbuf (local_image_size 3 1 2 * 1) b d ∧
      b = List.replicate 2 (local_image_size 3 1 2) ∧
      d.length = 2 ∧ d.getD 0 0 = 0 ∧
      (∀ i, 0 < i → i < 2 → d.getD i 0 = d.getD (i - 1) 0 + b.getD (i - 1) 0) ∧
      s.processed_image.data.length = 3 * 1 ∧
      b.sum ≤ s.processed_image.data.length ∧
      (0 < 1 → (s.processed_image.data.length = b.sum ↔ 3 % 2 = 0)) :=
  C3_displacements copyPixels 2 3 1 (mkInput 2 1) ⟨1, 1, 3, [1, 2, 3]⟩ (by decide)
    (Or.inl rfl) rfl

/-- C3 as stated fails: 3 rows, 1 column, 2 workers, edge detection.  The byte counts are
`[1, 1]`, of sum 2, and the output buffer of the root has 3 bytes. -/
theorem C3_counterexample :
    setup image3 2 = .ok [⟨1, 1, 3, [1, 2, 3]⟩, ⟨1, 1, 3, [4, 5, 6]⟩] ∧
    ∃ (s : RankStep) (sendbuf d : List Nat),
      round copyPixels ⟨0, 2, 3, 1⟩ (mkInput 2 1) ⟨1, 1, 3, [1, 2, 3]⟩ = .ok s ∧
      s.gather = .varying sendbuf 1 [1, 1] d ∧
      [1, 1].sum = 2 ∧ s.processed_image.data.length = 3 :=
  ⟨rfl, _, _, _, rfl, rfl, rfl, rfl⟩


/-! ### Setup -/

theorem setup_ok (image : Mat) (size : Nat) (hr : 0 < image.rows) (hc : 0 < image.cols)
    (hch : image.channels = 3) (hwf : image.wf) :
    setup image size = .ok ((List.range size).map (fun i =>
      ⟨local_rows image.rows size, image.cols, 3,
        (image.data.drop (i * (local_image_size image.rows image.cols size * 3))).take
          (local_image_size image.rows image.cols size * 3)⟩)) := by
  have hlen : image.data.length = image.rows * image.cols * 3 := by
    rw [← hch]; exact hwf
  have hle : size * (image.rows / size) ≤ image.rows := Nat.mul_div_le _ size
  have h2 : size * (local_image_size image.rows image.cols size * 3) ≤ image.data.length := by
    rw [hlen]
    simp only [local_image_size, local_rows]
    rw [show size * (image.rows / size * image.cols * 3)
      = size * (image.rows / size) * (image.cols * 3) by ring, Nat.mul_assoc image.rows]
    exact Nat.mul_le_mul_right _ hle
  unfold setup MPI_Scatter
  rw [if_neg (by omega), if_neg (by omega)]
  simp [bind, Except.bind, pure, Except.pure, Function.comp_def]

/-- C9, as the code has it: the partitioning step has no configuration error.  For every
loaded colour image and every `size >= 1` the setup goes through the scatter and leaves
`size` blocks of `rows / size` rows; when `rows < size` these are zero-row blocks without
data. -/
theorem C9_setup_never_fails (image : Mat) (size : Nat) (hr : 0 < image.rows)
    (hc : 0 < image.cols) (hch : image.channels = 3) (hwf : image.wf) (hsize : 0 < size) :
    ∃ locals : List Mat, setup image size = .ok locals ∧ locals.length = size ∧
      ∀ l : Mat, l ∈ locals →
        l.rows = image.rows / size ∧ l.cols = image.cols ∧ l.channels = 3 ∧ l.wf ∧
        (image.rows < size → l.rows = 0 ∧ l.data = []) := by
  have _hs := hsize
  refine ⟨_, setup_ok image size hr hc hch hwf, by simp, ?_⟩
  intro l hl
  have hlen : image.data.length = image.rows * image.cols * 3 := by
    rw [← hch]; exact hwf
  have hle : size * (image.rows / size) ≤ image.rows := Nat.mul_div_le _ size
  simp only [List.mem_map, List.mem_range] at hl
  obtain ⟨i, hi, rfl⟩ := hl
  have hb : (i + 1) * (image.rows / size * image.cols * 3) ≤ image.data.length := by
    rw [hlen]
    calc (i + 1) * (image.rows / size * image.cols * 3)
        ≤ size * (image.rows / size * image.cols * 3) := Nat.mul_le_mul_right _ hi
      _ = size * (image.rows / size) * (image.cols * 3) := by ring
      _ ≤ image.rows * (image.cols * 3) := Nat.mul_le_mul_right _ hle
      _ = image.rows * image.cols * 3 := by ring
  refine ⟨rfl, rfl, rfl, ?_, ?_⟩
  · simp only [Mat.wf, local_image_size, local_rows, List.length_take, List.length_drop]
    have : (i + 1) * (image.rows / size * image.cols * 3)
        = i * (image.rows / size * image.cols * 3) + image.rows / size * image.cols * 3 := by
      ring
    omega
  · intro hlt
    have h0 : image.rows / size = 0 := Nat.div_eq_of_lt hlt
    simp [local_image_size, local_rows, h0]

/-- C9 on a 1 x 1 image with 2 workers. -/
theorem C9_setup_never_fails_witness :
    ∃ locals : List Mat, setup image1 2 = .ok locals ∧ locals.length = 2 ∧
      ∀ l : Mat, l ∈ locals →
        l.rows = image1.rows / 2 ∧ l.cols = image1.cols ∧ l.channels = 3 ∧ l.wf ∧
        (image1.rows < 2 → l.rows = 0 ∧ l.data = []) :=
  C9_setup_never_fails image1 2 (by decide) (by decide) rfl (by decide) (by decide)

/-- C9 as stated fails: a 1-row image on 2 workers has `rows < size`, and the setup
reports nothing and scatters two zero-row blocks. -/
theorem C9_counterexample :
    image1.rows < 2 ∧ setup image1 2 = .ok [⟨0, 1, 3, []⟩, ⟨0, 1, 3, []⟩] :=
  ⟨by decide, rfl⟩


/-! ### Gathers -/

theorem writeAt_length (buf data : List Nat) (off : Nat) (h : off + data.length ≤ buf.length) :
    (writeAt buf off data).length = buf.length := by
  simp only [writeAt, List.length_append, List.length_take, List.length_drop]
  omega

theorem gatherInto_length (count : Nat) (bufs : List (List Nat)) :
    ∀ (i : Nat) (recv : List Nat), (∀ s ∈ bufs, count ≤ s.length) →
      (i + bufs.length) * count ≤ recv.length →
      (gatherInto count i bufs recv).length = recv.length := by
  induction bufs with
  | nil => intro i recv _ _; rfl
  | cons s rest ih =>
    intro i recv hs hlen
    have hsl : (s.take count).length = count := by
      simp [List.length_take, hs s (List.mem_cons_self _ _)]
    have hoff : i * count + (s.take count).length ≤ recv.length := by
      rw [hsl]
      calc i * count + count = (i + 1) * count := by ring
        _ ≤ (i + (s :: rest).length) * count :=
          Nat.mul_le_mul_right _ (by simp)
        _ ≤ recv.length := hlen
    have hw := writeAt_length recv (s.take count) (i * count) hoff
    simp only [gatherInto]
    rw [ih (i + 1) _ (fun t ht => hs t (List.mem_cons_of_mem _ ht))
      (by rw [hw]; simpa [Nat.add_assoc, Nat.add_comm 1] using hlen), hw]

theorem gatherInto_chunks (buf : List Nat) (c : Nat) :
    ∀ (m i : Nat) (recv : List Nat), (i + m) * c ≤ buf.length → (i + m) * c ≤ recv.length →
      recv.take (i * c) = buf.take (i * c) →
      gatherInto c i ((List.range' i m).map (fun j => (buf.drop (j * c)).take c)) recv =
        buf.take ((i + m) * c) ++ recv.drop ((i + m) * c) := by
  intro m
  induction m with
  | zero =>
    intro i recv _ _ h
    simp only [List.range'_zero, List.map_nil, gatherInto, Nat.add_zero]
    rw [← h, List.take_append_drop]
  | succ m ih =>
    intro i recv hb hr h
    have e1 : (i + (m + 1)) * c = i * c + c + m * c := by ring
    have e2 : (i + 1 + m) * c = i * c + c + m * c := by ring
    have e3 : (i + 1) * c = i * c + c := by ring
    have hchunk : (((buf.drop (i * c)).take c).take c).length = c := by
      simp only [List.length_take, List.length_drop]
      omega
    have hw : writeAt recv (i * c) (((buf.drop (i * c)).take c).take c) =
        buf.take ((i + 1) * c) ++ recv.drop ((i + 1) * c) := by
      unfold writeAt
      rw [hchunk, h, List.take_take, Nat.min_self, e3, List.take_add]
    simp only [List.range', List.map_cons, gatherInto]
    rw [hw, ih (i + 1) _ (by omega) (by
        simp only [List.length_append, List.length_take, List.length_drop]; omega) (by
        rw [List.take_append_of_le_length (by simp only [List.length_take]; omega),
          List.take_take, Nat.min_self])]
    rw [e2, e1, e3]
    congr 1
    have hl : (buf.take (i * c + c)).length = i * c + c := by
      simp only [List.length_take]; omega
    rw [List.drop_append_eq_append_drop, hl, List.drop_drop]
    have : List.drop (i * c + c + m * c) (List.take (i * c + c) buf) = [] := by
      apply List.drop_eq_nil_of_le
      omega
    rw [this, List.nil_append]
    congr 1
    omega


/-! ### The group round -/

theorem roundAll_ok (P : Pixels) (size rows cols : Nat) (inp : RoundInput)
    (F : Nat → Mat → RankStep) (locals : List Mat) :
    ∀ r : Nat, (∀ (k : Nat) (l : Mat), l ∈ locals →
        round P ⟨k, size, rows, cols⟩ inp l = .ok (F k l)) →
      roundAll P size rows cols inp r locals =
        .ok (List.zipWith F (List.range' r locals.length) locals) := by
  induction locals with
  | nil => intro r _; rfl
  | cons l ls ih =>
    intro r h
    simp only [roundAll, List.length_cons, List.range', List.zipWith_cons_cons]
    rw [h r l (List.mem_cons_self _ _),
      ih (r + 1) (fun k t ht => h k t (List.mem_cons_of_mem _ ht))]
    rfl

theorem zipWith_range_snd {β : Type} (g : Mat → β) (locals : List Mat) :
    ∀ r : Nat, List.zipWith (fun (_ : Nat) (l : Mat) => g l)
      (List.range' r locals.length) locals = locals.map g := by
  induction locals with
  | nil => intro r; rfl
  | cons l ls ih =>
    intro r
    simp only [List.length_cons, List.range', List.zipWith_cons_cons, List.map_cons, ih (r + 1)]

/-- A round that ends in the fixed-size gather: when every rank leaves the `switch` with
`keep l` as its block and `send l` as its send buffer, and the counts fit, the root ends
with `A` overwritten by the gathered blocks. -/
theorem groupRound_fixed (P : Pixels) (size rows cols : Nat) (inp : RoundInput)
    (keep : Mat → Mat) (send : Mat → List Nat) (A : Mat) (bc : List Collective)
    (count : Nat) (ty : MPI_Datatype) (con : Nat → List String) (locals : List Mat)
    (hne : locals ≠ [])
    (hround : ∀ (k : Nat) (l : Mat), l ∈ locals →
      round P ⟨k, size, rows, cols⟩ inp l =
        .ok ⟨keep l, if k = 0 then A else Mat.noData, bc, .fixed (send l) count ty, con k⟩)
    (hsend : ∀ l : Mat, l ∈ locals → count ≤ (send l).length)
    (hrecv : locals.length * count ≤ A.data.length) :
    groupRound P size rows cols inp locals =
      .ok (locals.map keep,
        ⟨A.rows, A.cols, A.channels, gatherInto count 0 (locals.map send) A.data⟩) := by
  unfold groupRound
  rw [roundAll_ok P size rows cols inp _ locals 0 hround]
  cases locals with
  | nil => exact absurd rfl hne
  | cons l ls =>
    have hmapk : (List.zipWith (fun (k : Nat) (l : Mat) =>
          (⟨keep l, if k = 0 then A else Mat.noData, bc, .fixed (send l) count ty, con k⟩ :
            RankStep))
        (List.range' 0 (l :: ls).length) (l :: ls)).map (fun s => s.local_image)
        = (l :: ls).map keep := by
      rw [List.map_zipWith]
      exact zipWith_range_snd keep (l :: ls) 0
    have hmaps : (List.zipWith (fun (k : Nat) (l : Mat) =>
          (⟨keep l, if k = 0 then A else Mat.noData, bc, .fixed (send l) count ty, con k⟩ :
            RankStep))
        (List.range' 0 (l :: ls).length) (l :: ls)).map (fun s => s.gather.sendbuf)
        = (l :: ls).map send := by
      rw [List.map_zipWith]
      exact zipWith_range_snd send (l :: ls) 0
    have hany : ((l :: ls).map send).any (fun s => decide (s.length < count)) = false := by
      rw [List.any_eq_false]
      intro s hs
      obtain ⟨t, ht, rfl⟩ := List.mem_map.mp hs
      have := hsend t ht
      simp only [decide_eq_true_eq]
      omega
    have hg : MPI_Gather ((l :: ls).map send) count A.data =
        .ok (gatherInto count 0 ((l :: ls).map send) A.data) := by
      unfold MPI_Gather
      rw [hany]
      rw [if_neg (by simp), if_neg (by simpa using hrecv)]
      rfl
    simp only [bind, Except.bind]
    rw [hmapk, hmaps]
    simp only [List.length_cons, List.range', List.zipWith_cons_cons, if_true]
    rw [hg]
    rfl


/-! ### Identity-shape operations -/

theorem round_case1 (P : Pixels) (e : Env) (inp : RoundInput) (l : Mat) (h : inp.choice = 1) :
    round P e inp l = .ok ⟨l, if e.rank = 0 then Mat.create e.rows e.cols 3 P.uninit
      else Mat.noData, [.Bcast 1 .MPI_INT],
      .fixed (GaussianBlur P l inp.p1).data (local_image_size e.rows e.cols e.size * 3)
        .MPI_BYTE, []⟩ := by
  simp [round, h, pure, Except.pure]

theorem round_case8 (P : Pixels) (e : Env) (inp : RoundInput) (l : Mat) (h : inp.choice = 8) :
    round P e inp l = .ok ⟨l, if e.rank = 0 then Mat.create e.rows e.cols 3 P.uninit
      else Mat.noData, [.Bcast 1 .MPI_INT],
      .fixed (medianBlur P l inp.p1).data (local_image_size e.rows e.cols e.size * 3)
        .MPI_BYTE, []⟩ := by
  simp [round, h, pure, Except.pure]

theorem scatter_fits (rows cols size : Nat) :
    size * (local_image_size rows cols size * 3) ≤ rows * cols * 3 := by
  simp only [local_image_size, local_rows]
  calc size * (rows / size * cols * 3) = size * (rows / size) * (cols * 3) := by ring
    _ ≤ rows * (cols * 3) := Nat.mul_le_mul_right _ (Nat.mul_div_le rows size)
    _ = rows * cols * 3 := by ring

theorem chunk_length (data : List Nat) (rows cols size i : Nat)
    (hlen : data.length = rows * cols * 3) (hi : i < size) :
    ((data.drop (i * (local_image_size rows cols size * 3))).take
      (local_image_size rows cols size * 3)).length = local_image_size rows cols size * 3 := by
  have hfit := scatter_fits rows cols size
  have : (i + 1) * (local_image_size rows cols size * 3) ≤
      size * (local_image_size rows cols size * 3) := Nat.mul_le_mul_right _ hi
  have e : (i + 1) * (local_image_size rows cols size * 3) =
      i * (local_image_size rows cols size * 3) + local_image_size rows cols size * 3 := by ring
  simp only [List.length_take, List.length_drop]
  omega

/-- The fixed-size gather of the scattered blocks themselves rebuilds the image up to the
last scattered byte and leaves the rest of the receive buffer as it was. -/
theorem gather_scatter (image A : Mat) (size : Nat) (hch : image.channels = 3)
    (hwf : image.wf) (hA : A.data.length = image.rows * image.cols * 3) :
    gatherInto (local_image_size image.rows image.cols size * 3) 0
      ((List.range size).map (fun i =>
        (image.data.drop (i * (local_image_size image.rows image.cols size * 3))).take
          (local_image_size image.rows image.cols size * 3))) A.data =
      image.data.take (size * (local_image_size image.rows image.cols size * 3)) ++
        A.data.drop (size * (local_image_size image.rows image.cols size * 3)) := by
  have hlen : image.data.length = image.rows * image.cols * 3 := by
    rw [← hch]; exact hwf
  have hfit := scatter_fits image.rows image.cols size
  have h := gatherInto_chunks image.data (local_image_size image.rows image.cols size * 3)
    size 0 A.data (by rw [Nat.zero_add, hlen]; exact hfit)
    (by rw [Nat.zero_add, hA]; exact hfit) (by simp)
  rw [Nat.zero_add] at h
  rw [List.range_eq_range']
  exact h

/-- C2: scatter, an identity transform on every block, and the fixed-size gather of
operation 1 or 8 give an output of the shape of the input (`rows x cols x 3`) whose first
`size * (rows / size)` rows are the input's bytes; when `size` divides `rows` the output
is the input. -/
theorem C2_identity_round_trip (P : Pixels) (image : Mat) (size : Nat) (inp : RoundInput)
    (hsize : 0 < size) (hrows : size ≤ image.rows) (hcols : 0 < image.cols)
    (hch : image.channels = 3) (hwf : image.wf)
    (hop : inp.choice = 1 ∨ inp.choice = 8)
    (hblur : inp.choice = 1 → ∀ src : Mat, src.wf → GaussianBlur P src inp.p1 = src)
    (hmedian : inp.choice = 8 → ∀ src : Mat, src.wf → medianBlur P src inp.p1 = src) :
    ∃ (locals : List Mat) (out : Mat),
      setup image size = .ok locals ∧
      groupRound P size image.rows image.cols inp locals = .ok (locals, out) ∧
      out.rows = image.rows ∧ out.cols = image.cols ∧ out.channels = 3 ∧ out.wf ∧
      out.data.take (size * (image.rows / size) * image.cols * 3) =
        image.data.take (size * (image.rows / size) * image.cols * 3) ∧
      (image.rows % size = 0 → out = image) := by
  have hr : 0 < image.rows := Nat.lt_of_lt_of_le hsize hrows
  have hlen : image.data.length = image.rows * image.cols * 3 := by
    rw [← hch]; exact hwf
  have hfit := scatter_fits image.rows image.cols size
  have hAlen : (Mat.create image.rows image.cols 3 P.uninit).data.length =
      image.rows * image.cols * 3 := mat_create_length _ _ _ _
  -- the blocks
  have hsetup := setup_ok image size hr hcols hch hwf
  generalize hL : (List.range size).map (fun i =>
      (⟨local_rows image.rows size, image.cols, 3,
        (image.data.drop (i * (local_image_size image.rows image.cols size * 3))).take
          (local_image_size image.rows image.cols size * 3)⟩ : Mat)) = locals at hsetup
  have hne : locals ≠ [] := by
    intro h
    have := congrArg List.length h
    rw [← hL] at this
    simp at this
    omega
  have hmem : ∀ l : Mat, l ∈ locals → l.wf ∧
      l.data.length = local_image_size image.rows image.cols size * 3 := by
    intro l hl
    rw [← hL] at hl
    simp only [List.mem_map, List.mem_range] at hl
    obtain ⟨i, hi, rfl⟩ := hl
    have := chunk_length image.data image.rows image.cols size i hlen hi
    refine ⟨?_, this⟩
    simp only [Mat.wf]
    rw [this]
    rfl
  have hdata : locals.map (fun l => l.data) = (List.range size).map (fun i =>
      (image.data.drop (i * (local_image_size image.rows image.cols size * 3))).take
        (local_image_size image.rows image.cols size * 3)) := by
    rw [← hL, List.map_map]
    rfl
  have hlocals_len : locals.length = size := by rw [← hL]; simp
  -- the transform is the identity on every block
  obtain ⟨T, hT, hround⟩ : ∃ T : Mat → Mat, (∀ l : Mat, l.wf → T l = l) ∧
      ∀ (k : Nat) (l : Mat), round P ⟨k, size, image.rows, image.cols⟩ inp l =
        .ok ⟨l, if k = 0 then Mat.create image.rows image.cols 3 P.uninit else Mat.noData,
          [.Bcast 1 .MPI_INT],
          .fixed (T l).data (local_image_size image.rows image.cols size * 3) .MPI_BYTE,
          []⟩ := by
    rcases hop with h | h
    · exact ⟨fun l => GaussianBlur P l inp.p1, hblur h, fun k l => round_case1 P _ inp l h⟩
    · exact ⟨fun l => medianBlur P l inp.p1, hmedian h, fun k l => round_case8 P _ inp l h⟩
  have hsendmap : locals.map (fun l => (T l).data) = locals.map (fun l => l.data) := by
    apply List.map_congr_left
    intro l hl
    rw [hT l (hmem l hl).1]
  have hgr := groupRound_fixed P size image.rows image.cols inp (fun l => l)
    (fun l => (T l).data) (Mat.create image.rows image.cols 3 P.uninit) [.Bcast 1 .MPI_INT]
    (local_image_size image.rows image.cols size * 3) .MPI_BYTE (fun _ => []) locals hne
    (fun k l _ => hround k l)
    (fun l hl => by show _ ≤ (T l).data.length; rw [hT l (hmem l hl).1, (hmem l hl).2])
    (by rw [hlocals_len, hAlen]; exact hfit)
  rw [hsendmap, hdata, gather_scatter image _ size hch hwf hAlen, List.map_id'] at hgr
  have hsz : size * (image.rows / size) * image.cols * 3 =
      size * (local_image_size image.rows image.cols size * 3) := by
    simp only [local_image_size, local_rows]; ring
  refine ⟨locals, _, hsetup, hgr, rfl, rfl, rfl, ?_, ?_, ?_⟩
  · simp only [Mat.wf, Mat.create, List.length_append, List.length_take, List.length_drop,
      List.length_map, List.length_range]
    omega
  · simp only
    rw [hsz, List.take_append_of_le_length (by simp only [List.length_take]; omega),
      List.take_take, Nat.min_self]
  · intro hdiv
    have hfull : size * (local_image_size image.rows image.cols size * 3) =
        image.data.length := by
      rw [hlen, ← hsz]
      have := Nat.div_add_mod image.rows size
      have e : size * (image.rows / size) = image.rows := by omega
      rw [e]
    have h1 : image.data.take (size * (local_image_size image.rows image.cols size * 3)) =
        image.data := by
      rw [hfull]; exact List.take_length _
    have h2 : (Mat.create image.rows image.cols 3 P.uninit).data.drop
        (size * (local_image_size image.rows image.cols size * 3)) = [] := by
      apply List.drop_eq_nil_of_le
      rw [hAlen, hfull, hlen]
    rw [h1, h2, List.append_nil]
    cases image
    simp only [Mat.create] at *
    subst hch
    rfl


/-! ### The variable-size gather -/

theorem displsLoop_closed (b size : Nat) (hsize : 0 < size) :
    displsLoop (List.replicate size b) size (List.replicate size 0) =
      (List.range' 0 size).map (fun i => i * b) := by
  obtain ⟨hlen, h0, hrec⟩ := displsLoop_spec (List.replicate size b) size hsize
  have hval : ∀ i, i < size →
      (displsLoop (List.replicate size b) size (List.replicate size 0)).getD i 0 = i * b := by
    intro i
    induction i with
    | zero => intro _; simpa using h0
    | succ i ih =>
      intro hi
      rw [hrec (i + 1) (by omega) hi, Nat.add_sub_cancel, ih (by omega)]
      have : (List.replicate size b).getD i 0 = b := by
        simp [List.getD_eq_getElem?_getD, List.getElem?_replicate, show i < size by omega]
      rw [this]
      ring
  apply List.ext_getElem?
  intro i
  by_cases hi : i < size
  · have h1 := hval i hi
    rw [List.getD_eq_getElem?_getD] at h1
    have h2 : i < (displsLoop (List.replicate size b) size (List.replicate size 0)).length := by
      omega
    rw [List.getElem?_eq_getElem h2] at h1 ⊢
    simp only [Option.getD_some] at h1
    rw [h1]
    simp [List.getElem?_map, List.getElem?_range', hi]
  · rw [List.getElem?_eq_none (by omega), List.getElem?_eq_none (by simp; omega)]

theorem gathervFits_ok (len b : Nat) (sends : List (List Nat × Nat)) :
    ∀ i : Nat, (∀ s ∈ sends, s.2 = b ∧ b ≤ s.1.length) → (i + sends.length) * b ≤ len →
      gathervFits len sends (List.replicate sends.length b)
        ((List.range' i sends.length).map (fun j => j * b)) = true := by
  induction sends with
  | nil => intro i _ _; rfl
  | cons s rest ih =>
    intro i hs hlen
    obtain ⟨s1, s2⟩ := s
    have h1 := hs (s1, s2) (List.mem_cons_self _ _)
    simp only at h1
    have e : (i + (rest.length + 1)) * b = i * b + b + rest.length * b := by ring
    simp only [List.length_cons] at hlen
    simp only [List.length_cons, List.replicate_succ, List.range', List.map_cons, gathervFits,
      Bool.and_eq_true, decide_eq_true_eq]
    refine ⟨⟨⟨h1.1, h1.2⟩, by omega⟩, ?_⟩
    exact ih (i + 1) (fun t ht => hs t (List.mem_cons_of_mem _ ht)) (by
      have : (i + 1 + rest.length) * b = i * b + b + rest.length * b := by ring
      omega)

theorem gathervInto_length (b : Nat) (bufs : List (List Nat)) :
    ∀ (i : Nat) (recv : List Nat), (∀ s ∈ bufs, b ≤ s.length) →
      (i + bufs.length) * b ≤ recv.length →
      (gathervInto bufs (List.replicate bufs.length b)
        ((List.range' i bufs.length).map (fun j => j * b)) recv).length = recv.length := by
  induction bufs with
  | nil => intro i recv _ _; rfl
  | cons s rest ih =>
    intro i recv hs hlen
    have hsl : (s.take b).length = b := by
      simp [List.length_take, hs s (List.mem_cons_self _ _)]
    simp only [List.length_cons] at hlen
    have e : (i + (rest.length + 1)) * b = i * b + b + rest.length * b := by ring
    have hw := writeAt_length recv (s.take b) (i * b) (by rw [hsl]; omega)
    simp only [List.length_cons, List.replicate_succ, List.range', List.map_cons, gathervInto]
    rw [ih (i + 1) _ (fun t ht => hs t (List.mem_cons_of_mem _ ht)) (by
      rw [hw]
      have : (i + 1 + rest.length) * b = i * b + b + rest.length * b := by ring
      omega), hw]

/-- A round that ends in the variable-size gather of operations 2 and 4: the root's
output keeps the shape of `A` and its length. -/
theorem groupRound_varying (P : Pixels) (size rows cols : Nat) (inp : RoundInput)
    (keep : Mat → Mat) (send : Mat → List Nat) (A : Mat) (bc : List Collective)
    (b : Nat) (locals : List Mat) (hlocals : locals.length = size) (hsize : 0 < size)
    (hround : ∀ (k : Nat) (l : Mat), l ∈ locals →
      round P ⟨k, size, rows, cols⟩ inp l =
        .ok ⟨keep l, if k = 0 then A else Mat.noData, bc,
          .varying (send l) (b * 1) (List.replicate size b)
            (displs k size (List.replicate size b)), []⟩)
    (hsend : ∀ l : Mat, l ∈ locals → b ≤ (send l).length)
    (hrecv : size * b ≤ A.data.length) :
    ∃ out : Mat, groupRound P size rows cols inp locals = .ok (locals.map keep, out) ∧
      out.rows = A.rows ∧ out.cols = A.cols ∧ out.channels = A.channels ∧
      out.data.length = A.data.length := by
  unfold groupRound
  rw [roundAll_ok P size rows cols inp _ locals 0 hround]
  cases locals with
  | nil => simp at hlocals; omega
  | cons l ls =>
    have hmapk : (List.zipWith (fun (k : Nat) (l : Mat) =>
          (⟨keep l, if k = 0 then A else Mat.noData, bc,
            .varying (send l) (b * 1) (List.replicate size b)
              (displs k size (List.replicate size b)), []⟩ : RankStep))
        (List.range' 0 (l :: ls).length) (l :: ls)).map (fun s => s.local_image)
        = (l :: ls).map keep := by
      rw [List.map_zipWith]
      exact zipWith_range_snd keep (l :: ls) 0
    have hmaps : (List.zipWith (fun (k : Nat) (l : Mat) =>
          (⟨keep l, if k = 0 then A else Mat.noData, bc,
            .varying (send l) (b * 1) (List.replicate size b)
              (displs k size (List.replicate size b)), []⟩ : RankStep))
        (List.range' 0 (l :: ls).length) (l :: ls)).map
          (fun s => (s.gather.sendbuf, s.gather.sendcount))
        = (l :: ls).map (fun l => (send l, b)) := by
      rw [List.map_zipWith]
      simp only [GatherCall.sendbuf, GatherCall.sendcount, Nat.mul_one]
      exact zipWith_range_snd (fun l => (send l, b)) (l :: ls) 0
    have hd : displs 0 size (List.replicate size b) =
        (List.range' 0 (l :: ls).length).map (fun i => i * b) := by
      rw [hlocals]
      simp only [displs, if_true]
      exact displsLoop_closed b size hsize
    have hrep : List.replicate size b =
        List.replicate ((l :: ls).map (fun l => (send l, b))).length b := by
      rw [List.length_map, hlocals]
    have hfit : gathervFits A.data.length ((l :: ls).map (fun l => (send l, b)))
        (List.replicate size b) (displs 0 size (List.replicate size b)) = true := by
      rw [hd, hrep]
      have := gathervFits_ok A.data.length b ((l :: ls).map (fun l => (send l, b))) 0
        (by
          intro s hs
          obtain ⟨t, ht, rfl⟩ := List.mem_map.mp hs
          exact ⟨rfl, hsend t ht⟩)
        (by rw [List.length_map, hlocals, Nat.zero_add]; exact hrecv)
      rw [List.length_map] at this ⊢
      exact this
    have hlen : (gathervInto (((l :: ls).map (fun l => (send l, b))).map Prod.fst)
        (List.replicate size b) (displs 0 size (List.replicate size b)) A.data).length =
        A.data.length := by
      rw [hd, List.map_map]
      have := gathervInto_length b ((l :: ls).map (Prod.fst ∘ fun l => (send l, b))) 0 A.data
        (by
          intro s hs
          obtain ⟨t, ht, rfl⟩ := List.mem_map.mp hs
          exact hsend t ht)
        (by rw [List.length_map, hlocals, Nat.zero_add]; exact hrecv)
      rw [List.length_map, hlocals] at this
      rw [hlocals]
      exact this
    simp only [bind, Except.bind]
    rw [hmapk, hmaps]
    simp only [List.length_cons, List.range', List.zipWith_cons_cons, if_true]
    unfold MPI_Gatherv
    rw [if_pos hfit]
    exact ⟨_, rfl, rfl, rfl, rfl, hlen⟩

/-- The fixed-size gather keeps the shape and the length of the root's buffer. -/
theorem groupRound_fixed_shape (P : Pixels) (size rows cols : Nat) (inp : RoundInput)
    (keep : Mat → Mat) (send : Mat → List Nat) (A : Mat) (bc : List Collective)
    (count : Nat) (ty : MPI_Datatype) (con : Nat → List String) (locals : List Mat)
    (hne : locals ≠ [])
    (hround : ∀ (k : Nat) (l : Mat), l ∈ locals →
      round P ⟨k, size, rows, cols⟩ inp l =
        .ok ⟨keep l, if k = 0 then A else Mat.noData, bc, .fixed (send l) count ty, con k⟩)
    (hsend : ∀ l : Mat, l ∈ locals → count ≤ (send l).length)
    (hrecv : locals.length * count ≤ A.data.length) :
    ∃ out : Mat, groupRound P size rows cols inp locals = .ok (locals.map keep, out) ∧
      out.rows = A.rows ∧ out.cols = A.cols ∧ out.channels = A.channels ∧
      out.data.length = A.data.length := by
  refine ⟨_, groupRound_fixed P size rows cols inp keep send A bc count ty con locals hne
    hround hsend hrecv, rfl, rfl, rfl, ?_⟩
  exact gatherInto_length count (locals.map send) 0 A.data
    (by
      intro s hs
      obtain ⟨t, ht, rfl⟩ := List.mem_map.mp hs
      exact hsend t ht)
    (by rw [List.length_map, Nat.zero_add]; exact hrecv)


/-! ### Channel-changed operations -/

theorem round_case6 (P : Pixels) (e : Env) (inp : RoundInput) (l : Mat)
    (h : inp.choice = 6) (hc : l.channels = 3) :
    round P e inp l = .ok ⟨Mat.create l.rows l.cols 1 (P.gray l),
      if e.rank = 0 then Mat.create e.rows e.cols 1 P.uninit else Mat.noData,
      [.Bcast 1 .MPI_INT],
      .fixed (threshold P (Mat.create l.rows l.cols 1 (P.gray l)) inp.p1).data
        (local_image_size e.rows e.cols e.size) .MPI_BYTE, []⟩ := by
  simp [round, h, hc, cvtColor_gray P l hc, bind, Except.bind, pure, Except.pure]

theorem round_case7 (P : Pixels) (e : Env) (inp : RoundInput) (l : Mat)
    (h : inp.choice = 7) (hc : l.channels = 3) :
    round P e inp l = .ok ⟨Mat.create l.rows l.cols 1 (P.gray l),
      if e.rank = 0 then Mat.create e.rows e.cols 1 P.uninit else Mat.noData,
      [.Bcast 1 .MPI_INT, .Bcast 1 .MPI_INT],
      .fixed (Mat.create l.rows l.cols 1
          (P.adaptive inp.p1 inp.p2 (Mat.create l.rows l.cols 1 (P.gray l)))).data
        (local_image_size e.rows e.cols e.size) .MPI_BYTE, []⟩ := by
  simp [round, h, hc, cvtColor_gray P l hc, adaptiveThreshold, Mat.create, bind, Except.bind,
    pure, Except.pure]

theorem round_case5 (P : Pixels) (e : Env) (inp : RoundInput) (l : Mat)
    (h : inp.choice = 5) (hc : l.channels = 3) (hcode : inp.p1 = 0 ∨ inp.p1 = 1 ∨ inp.p1 = 2) :
    round P e inp l = .ok ⟨l,
      if e.rank = 0 then Mat.create e.rows e.cols (if inp.p1 = 0 then 1 else 3) P.uninit
      else Mat.noData,
      [.Bcast 1 .MPI_INT],
      .fixed (Mat.create l.rows l.cols (if inp.p1 = 0 then 1 else 3)
          (if inp.p1 = 0 then P.gray l else if inp.p1 = 1 then P.hsv l else P.lab l)).data
        (local_image_size e.rows e.cols e.size * (if inp.p1 = 0 then 1 else 3)) .MPI_BYTE,
      []⟩ := by
  rcases hcode with h0 | h1 | h2
  · simp [round, h, h0, cvtColor, hc, Mat.create, bind, Except.bind, pure, Except.pure]
  · simp [round, h, h1, cvtColor, hc, Mat.create, bind, Except.bind, pure, Except.pure]
  · simp [round, h, h2, cvtColor, hc, Mat.create, bind, Except.bind, pure, Except.pure]

theorem gather_fits (rows cols size c : Nat) :
    size * (local_image_size rows cols size * c) ≤ rows * cols * c := by
  simp only [local_image_size, local_rows]
  calc size * (rows / size * cols * c) = size * (rows / size) * (cols * c) := by ring
    _ ≤ rows * (cols * c) := Nat.mul_le_mul_right _ (Nat.mul_div_le rows size)
    _ = rows * cols * c := by ring

/-- The blocks the setup leaves: one per rank, each `rows / size` rows of the image's
width, 3 channels, with a buffer of matching length. -/
theorem setup_blocks (image : Mat) (size : Nat) (hr : 0 < image.rows) (hc : 0 < image.cols)
    (hch : image.channels = 3) (hwf : image.wf) :
    ∃ locals : List Mat, setup image size = .ok locals ∧ locals.length = size ∧
      ∀ l : Mat, l ∈ locals → l.rows = local_rows image.rows size ∧ l.cols = image.cols ∧
        l.channels = 3 ∧ l.wf := by
  refine ⟨_, setup_ok image size hr hc hch hwf, by simp, ?_⟩
  intro l hl
  have hlen : image.data.length = image.rows * image.cols * 3 := by
    rw [← hch]; exact hwf
  simp only [List.mem_map, List.mem_range] at hl
  obtain ⟨i, hi, rfl⟩ := hl
  refine ⟨rfl, rfl, rfl, ?_⟩
  simp only [Mat.wf]
  rw [chunk_length image.data image.rows image.cols size i hlen hi]
  rfl

theorem MPI_Gather_length (bufs : List (List Nat)) (count : Nat) (recv data : List Nat)
    (h : MPI_Gather bufs count recv = .ok data) : data.length = recv.length := by
  unfold MPI_Gather at h
  by_cases hany : bufs.any (fun s => decide (s.length < count)) = true
  · rw [if_pos hany] at h
    exact absurd h (by simp [throw, throwThe, MonadExceptOf.throw])
  · rw [if_neg hany] at h
    by_cases hlen : recv.length < bufs.length * count
    · rw [if_pos hlen] at h
      exact absurd h (by simp [throw, throwThe, MonadExceptOf.throw])
    · rw [if_neg hlen] at h
      have hd : gatherInto count 0 bufs recv = data := Except.ok.inj h
      rw [← hd]
      apply gatherInto_length
      · intro s hs
        by_contra hc
        exact hany (List.any_eq_true.mpr ⟨s, hs, by simp only [decide_eq_true_eq]; omega⟩)
      · rw [Nat.zero_add]; omega

theorem gathervInto_length_of_fits :
    ∀ (sends : List (List Nat × Nat)) (rc ds recv : List Nat),
      gathervFits recv.length sends rc ds = true →
      (gathervInto (sends.map Prod.fst) rc ds recv).length = recv.length := by
  intro sends
  induction sends with
  | nil => intro rc ds recv _; rfl
  | cons s rest ih =>
    intro rc ds recv h
    obtain ⟨s1, s2⟩ := s
    cases rc with
    | nil => rfl
    | cons c cs =>
      cases ds with
      | nil => rfl
      | cons d dt =>
        simp only [gathervFits, Bool.and_eq_true, decide_eq_true_eq] at h
        obtain ⟨⟨⟨_, hc⟩, hd⟩, hrest⟩ := h
        have hsl : (s1.take c).length = c := by simp [List.length_take, hc]
        have hw := writeAt_length recv (s1.take c) d (by rw [hsl]; exact hd)
        simp only [List.map_cons, gathervInto]
        rw [ih cs dt _ (by rw [hw]; exact hrest), hw]

theorem MPI_Gatherv_length (sends : List (List Nat × Nat)) (rc ds recv data : List Nat)
    (h : MPI_Gatherv sends rc ds recv = .ok data) : data.length = recv.length := by
  unfold MPI_Gatherv at h
  by_cases hfit : gathervFits recv.length sends rc ds = true
  · rw [if_pos hfit] at h
    have hd : gathervInto (sends.map Prod.fst) rc ds recv = data := Except.ok.inj h
    rw [← hd]
    exact gathervInto_length_of_fits sends rc ds recv hfit
  · rw [if_neg hfit] at h
    exact absurd h (by simp [throw, throwThe, MonadExceptOf.throw])

/-- Whatever the blocks, when a round of the group returns, its output image has the
shape and the length of the `processed_image` rank 0 allocated in the `switch`. -/
theorem groupRound_out (P : Pixels) (size rows cols : Nat) (inp : RoundInput)
    (locals locals' : List Mat) (out : Mat)
    (h : groupRound P size rows cols inp locals = .ok (locals', out)) :
    ∃ (l0 : Mat) (ls : List Mat) (s0 : RankStep), locals = l0 :: ls ∧
      round P ⟨0, size, rows, cols⟩ inp l0 = .ok s0 ∧
      out.rows = s0.processed_image.rows ∧ out.cols = s0.processed_image.cols ∧
      out.channels = s0.processed_image.channels ∧
      out.data.length = s0.processed_image.data.length := by
  cases locals with
  | nil =>
    simp [groupRound, roundAll, bind, Except.bind, pure, Except.pure, throw, throwThe,
      MonadExceptOf.throw] at h
  | cons l0 ls =>
    cases hs0 : round P ⟨0, size, rows, cols⟩ inp l0 with
    | error m =>
      simp [groupRound, roundAll, hs0, bind, Except.bind] at h
    | ok s0 =>
      refine ⟨l0, ls, s0, rfl, hs0, ?_⟩
      cases hss : roundAll P size rows cols inp (0 + 1) ls with
      | error m =>
        simp [groupRound, roundAll, hs0, hss, bind, Except.bind] at h
      | ok ss =>
        simp only [groupRound, roundAll, hs0, hss, bind, Except.bind, pure, Except.pure] at h
        cases hg : s0.gather with
        | skip =>
          rw [hg] at h
          simp only [Except.ok.injEq, Prod.mk.injEq] at h
          rw [← h.2]
          exact ⟨rfl, rfl, rfl, rfl⟩
        | fixed b count ty =>
          rw [hg] at h
          simp only at h
          cases hd : MPI_Gather ((s0 :: ss).map (fun s => s.gather.sendbuf)) count
              s0.processed_image.data with
          | error m => rw [hd] at h; simp at h
          | ok data =>
            rw [hd] at h
            simp only [Except.ok.injEq, Prod.mk.injEq] at h
            rw [← h.2]
            exact ⟨rfl, rfl, rfl, MPI_Gather_length _ _ _ _ hd⟩
        | varying b sc rc ds =>
          rw [hg] at h
          simp only at h
          cases hd : MPI_Gatherv
              ((s0 :: ss).map (fun s => (s.gather.sendbuf, s.gather.sendcount))) rc ds
              s0.processed_image.data with
          | error m => rw [hd] at h; simp at h
          | ok data =>
            rw [hd] at h
            simp only [Except.ok.injEq, Prod.mk.injEq] at h
            rw [← h.2]
            exact ⟨rfl, rfl, rfl, MPI_Gatherv_length _ _ _ _ _ hd⟩

/-- Whatever its block, when rank 0 leaves the `switch` of a channel-changed operation,
the output image it allocated has the input's rows and cols and the target channels. -/
theorem round_channel_changed_alloc (P : Pixels) (size rows cols : Nat) (inp : RoundInput)
    (l : Mat) (s : RankStep)
    (hop : inp.choice = 2 ∨ inp.choice = 4 ∨ inp.choice = 6 ∨ inp.choice = 7 ∨
      (inp.choice = 5 ∧ (inp.p1 = 0 ∨ inp.p1 = 1 ∨ inp.p1 = 2)))
    (hs : round P ⟨0, size, rows, cols⟩ inp l = .ok s) :
    s.processed_image.rows = rows ∧ s.processed_image.cols = cols ∧
    s.processed_image.channels = (if inp.choice = 5 ∧ inp.p1 ≠ 0 then 3 else 1) ∧
    s.processed_image.data.length = rows * cols * s.processed_image.channels := by
  have key : (round P ⟨0, size, rows, cols⟩ inp l).map (fun s => s.processed_image) =
      (round P ⟨0, size, rows, cols⟩ inp l).map (fun _ =>
        Mat.create rows cols (if inp.choice = 5 ∧ inp.p1 ≠ 0 then 3 else 1)
          (if inp.choice = 2 ∨ inp.choice = 4 then fun _ => 0 else P.uninit)) := by
    rcases hop with h | h | h | h | ⟨h, hcode⟩
    · cases hx : cvtColor P l .COLOR_BGR2GRAY <;>
        simp [round, h, hx, Mat.zeros, Except.map, pure, Except.pure, bind, Except.bind]
    · cases hx : cvtColor P l .COLOR_BGR2GRAY with
      | error m => simp [round, h, hx, Except.map, bind, Except.bind]
      | ok v =>
        cases hy : equalizeHist P v <;>
          simp [round, h, hx, hy, Mat.zeros, Except.map, pure, Except.pure, bind, Except.bind]
    · by_cases hgt : l.channels > 1
      · cases hx : cvtColor P l .COLOR_BGR2GRAY <;>
          simp [round, h, hgt, hx, Except.map, pure, Except.pure, bind, Except.bind]
      · simp [round, h, hgt, Except.map, pure, Except.pure, bind, Except.bind]
    · by_cases hgt : l.channels > 1
      · cases hx : cvtColor P l .COLOR_BGR2GRAY with
        | error m => simp [round, h, hgt, hx, Except.map, bind, Except.bind]
        | ok v =>
          cases hy : adaptiveThreshold P v inp.p1 inp.p2 <;>
            simp [round, h, hgt, hx, hy, Except.map, pure, Except.pure, bind, Except.bind]
      · cases hy : adaptiveThreshold P l inp.p1 inp.p2 <;>
          simp [round, h, hgt, hy, Except.map, pure, Except.pure, bind, Except.bind]
    · by_cases hch : l.channels = 3 ∨ l.channels = 4
      · rcases hcode with p | p | p <;>
          simp [round, h, p, cvtColor, hch, Mat.create, Except.map, pure, Except.pure, bind,
            Except.bind]
      · rcases hcode with p | p | p <;>
          simp [round, h, p, cvtColor, hch, Except.map, bind, Except.bind, throw, throwThe,
            MonadExceptOf.throw]
  rw [hs] at key
  simp only [Except.map, Except.ok.injEq] at key
  rw [key]
  exact ⟨rfl, rfl, rfl, mat_create_length _ _ _ _⟩

/-- On the blocks the scatter hands out every channel-changed operation returns an
output of the target shape. -/
theorem channel_changed_scattered (P : Pixels) (image : Mat) (size : Nat) (inp : RoundInput)
    (hsize : 0 < size) (hrows : size ≤ image.rows) (hcols : 0 < image.cols)
    (hch : image.channels = 3) (hwf : image.wf)
    (hop : inp.choice = 2 ∨ inp.choice = 4 ∨ inp.choice = 6 ∨ inp.choice = 7 ∨
      (inp.choice = 5 ∧ (inp.p1 = 0 ∨ inp.p1 = 1 ∨ inp.p1 = 2))) :
    ∃ (locals locals' : List Mat) (out : Mat),
      setup image size = .ok locals ∧
      groupRound P size image.rows image.cols inp locals = .ok (locals', out) ∧
      out.rows = image.rows ∧ out.cols = image.cols ∧
      out.channels = (if inp.choice = 5 ∧ inp.p1 ≠ 0 then 3 else 1) ∧
      out.data.length = image.rows * image.cols * out.channels := by
  have hr : 0 < image.rows := Nat.lt_of_lt_of_le hsize hrows
  obtain ⟨locals, hsetup, hlen, hmem⟩ := setup_blocks image size hr hcols hch hwf
  have hne : locals ≠ [] := by
    intro h
    rw [h] at hlen
    simp at hlen
    omega
  have hlis : ∀ l : Mat, l ∈ locals →
      l.rows * l.cols = local_image_size image.rows image.cols size := by
    intro l hl
    rw [(hmem l hl).1, (hmem l hl).2.1]
    rfl
  rcases hop with h | h | h | h | ⟨h, hcode⟩
  · obtain ⟨out, hg, h1, h2, h3, h4⟩ := groupRound_varying P size image.rows image.cols inp
      (fun l => l) (fun l => (Canny P (Mat.create l.rows l.cols 1 (P.gray l)) inp.p1 inp.p2).data)
      (Mat.zeros image.rows image.cols 1) [.Bcast 1 .MPI_INT, .Bcast 1 .MPI_INT]
      (local_image_size image.rows image.cols size) locals hlen hsize
      (fun k l hl => round_case2 P _ inp l h (hmem l hl).2.2.1)
      (fun l hl => by simp [Canny, Mat.create, hlis l hl])
      (by simpa [Mat.zeros, Mat.create] using gather_fits image.rows image.cols size 1)
    refine ⟨locals, _, out, hsetup, hg, h1, h2, ?_, ?_⟩
    · rw [h3, if_neg (by rw [h]; simp)]; rfl
    · rw [h4, h3]; simp [Mat.zeros, Mat.create]
  · obtain ⟨out, hg, h1, h2, h3, h4⟩ := groupRound_varying P size image.rows image.cols inp
      (fun l => Mat.create l.rows l.cols 1 (P.gray l))
      (fun l => (Mat.create l.rows l.cols 1
          (P.equalized (Mat.create l.rows l.cols 1 (P.gray l)))).data)
      (Mat.zeros image.rows image.cols 1) []
      (local_image_size image.rows image.cols size) locals hlen hsize
      (fun k l hl => round_case4 P _ inp l h (hmem l hl).2.2.1)
      (fun l hl => by simp [Mat.create, hlis l hl])
      (by simpa [Mat.zeros, Mat.create] using gather_fits image.rows image.cols size 1)
    refine ⟨locals, _, out, hsetup, hg, h1, h2, ?_, ?_⟩
    · rw [h3, if_neg (by rw [h]; simp)]; rfl
    · rw [h4, h3]; simp [Mat.zeros, Mat.create]
  · obtain ⟨out, hg, h1, h2, h3, h4⟩ := groupRound_fixed_shape P size image.rows image.cols inp
      (fun l => Mat.create l.rows l.cols 1 (P.gray l))
      (fun l => (threshold P (Mat.create l.rows l.cols 1 (P.gray l)) inp.p1).data)
      (Mat.create image.rows image.cols 1 P.uninit) [.Bcast 1 .MPI_INT]
      (local_image_size image.rows image.cols size) .MPI_BYTE (fun _ => []) locals hne
      (fun k l hl => round_case6 P _ inp l h (hmem l hl).2.2.1)
      (fun l hl => by simp [threshold, Mat.create, hlis l hl])
      (by simpa [Mat.create, hlen] using gather_fits image.rows image.cols size 1)
    refine ⟨locals, _, out, hsetup, hg, h1, h2, ?_, ?_⟩
    · rw [h3, if_neg (by rw [h]; simp)]; rfl
    · rw [h4, h3]; simp [Mat.create]
  · obtain ⟨out, hg, h1, h2, h3, h4⟩ := groupRound_fixed_shape P size image.rows image.cols inp
      (fun l => Mat.create l.rows l.cols 1 (P.gray l))
      (fun l => (Mat.create l.rows l.cols 1
          (P.adaptive inp.p1 inp.p2 (Mat.create l.rows l.cols 1 (P.gray l)))).data)
      (Mat.create image.rows image.cols 1 P.uninit) [.Bcast 1 .MPI_INT, .Bcast 1 .MPI_INT]
      (local_image_size image.rows image.cols size) .MPI_BYTE (fun _ => []) locals hne
      (fun k l hl => round_case7 P _ inp l h (hmem l hl).2.2.1)
      (fun l hl => by simp [Mat.create, hlis l hl])
      (by simpa [Mat.create, hlen] using gather_fits image.rows image.cols size 1)
    refine ⟨locals, _, out, hsetup, hg, h1, h2, ?_, ?_⟩
    · rw [h3, if_neg (by rw [h]; simp)]; rfl
    · rw [h4, h3]; simp [Mat.create]
  · obtain ⟨out, hg, h1, h2, h3, h4⟩ := groupRound_fixed_shape P size image.rows image.cols inp
      (fun l => l)
      (fun l => (Mat.create l.rows l.cols (if inp.p1 = 0 then 1 else 3)
          (if inp.p1 = 0 then P.gray l else if inp.p1 = 1 then P.hsv l else P.lab l)).data)
      (Mat.create image.rows image.cols (if inp.p1 = 0 then 1 else 3) P.uninit)
      [.Bcast 1 .MPI_INT]
      (local_image_size image.rows image.cols size * (if inp.p1 = 0 then 1 else 3))
      .MPI_BYTE (fun _ => []) locals hne
      (fun k l hl => round_case5 P _ inp l h (hmem l hl).2.2.1 hcode)
      (fun l hl => by simp [Mat.create, hlis l hl])
      (by
        rw [hlen, mat_create_length]
        exact gather_fits image.rows image.cols size _)
    refine ⟨locals, _, out, hsetup, hg, h1, h2, ?_, ?_⟩
    · rw [h3]
      by_cases h0 : inp.p1 = 0
      · simp [Mat.create, h0]
      · simp [Mat.create, h0, h]
    · rw [h4, h3]; simp [Mat.create]

/-- C5: every channel-changed operation (2, 4, 6, 7, and 5 with conversion code 0, 1 or
2) ends with an output image of the input's rows and cols and of the target channel
count, 3 for operation 5 with code 1 or 2 and 1 otherwise, whose buffer has
`rows * cols * channels` bytes.  On the blocks the scatter hands out the round does
return such an output; and whatever the blocks are, an output the round returns has
that shape. -/
theorem C5_channel_changed (P : Pixels) (image : Mat) (size : Nat) (inp : RoundInput)
    (hsize : 0 < size) (hrows : size ≤ image.rows) (hcols : 0 < image.cols)
    (hch : image.channels = 3) (hwf : image.wf)
    (hop : inp.choice = 2 ∨ inp.choice = 4 ∨ inp.choice = 6 ∨ inp.choice = 7 ∨
      (inp.choice = 5 ∧ (inp.p1 = 0 ∨ inp.p1 = 1 ∨ inp.p1 = 2))) :
    (∃ (locals locals' : List Mat) (out : Mat),
      setup image size = .ok locals ∧
      groupRound P size image.rows image.cols inp locals = .ok (locals', out) ∧
      out.rows = image.rows ∧ out.cols = image.cols ∧
      out.channels = (if inp.choice = 5 ∧ inp.p1 ≠ 0 then 3 else 1) ∧
      out.data.length = image.rows * image.cols * out.channels) ∧
    (∀ (blocks blocks' : List Mat) (out : Mat),
      groupRound P size image.rows image.cols inp blocks = .ok (blocks', out) →
      out.rows = image.rows ∧ out.cols = image.cols ∧
      out.channels = (if inp.choice = 5 ∧ inp.p1 ≠ 0 then 3 else 1) ∧
      out.data.length = image.rows * image.cols * out.channels) := by
  refine ⟨channel_changed_scattered P image size inp hsize hrows hcols hch hwf hop, ?_⟩
  intro blocks blocks' out h
  obtain ⟨l0, ls, s0, _, hs0, e1, e2, e3, e4⟩ :=
    groupRound_out P size image.rows image.cols inp blocks blocks' out h
  obtain ⟨a1, a2, a3, a4⟩ :=
    round_channel_changed_alloc P size image.rows image.cols inp l0 s0 hop hs0
  exact ⟨by rw [e1, a1], by rw [e2, a2], by rw [e3, a3], by rw [e4, a4, e3]⟩

/-! ### Witnesses of the round trip and of the channel change -/

theorem copyPixels_create (src : Mat) (hwf : src.wf) :
    Mat.create src.rows src.cols src.channels (fun i => src.data.getD i 0) = src := by
  cases src with
  | mk r c ch data =>
    simp only [Mat.wf] at hwf
    simp only [Mat.create, Mat.mk.injEq, true_and]
    rw [← hwf]
    apply List.ext_getElem?
    intro i
    by_cases hi : i < data.length
    · simp [List.getElem?_map, List.getElem?_range hi, List.getD_eq_getElem?_getD, hi]
    · rw [List.getElem?_eq_none (by simp; omega), List.getElem?_eq_none (by omega)]

/-- C2 on the 4 x 1 image with 2 workers and a blur that copies: the output is the
input. -/
theorem C2_identity_round_trip_witness :
    ∃ (locals : List Mat) (out : Mat),
      setup image4 2 = .ok locals ∧
      groupRound copyPixels 2 image4.rows image4.cols (mkInput 1 1) locals = .ok (locals, out) ∧
      out.rows = image4.rows ∧ out.cols = image4.cols ∧ out.channels = 3 ∧ out.wf ∧
      out.data.take (2 * (image4.rows / 2) * image4.cols * 3) =
        image4.data.take (2 * (image4.rows / 2) * image4.cols * 3) ∧
      (image4.rows % 2 = 0 → out = image4) :=
  C2_identity_round_trip copyPixels image4 2 (mkInput 1 1) (by decide) (by decide)
    (by decide) rfl (by decide) (Or.inl rfl)
    (fun _ src hwf => copyPixels_create src hwf)
    (fun _ src hwf => copyPixels_create src hwf)

/-- C5 on a 100-row image with 3 workers and global thresholding: 100 rows, the input's
cols, 1 channel. -/
theorem C5_channel_changed_witness :
    (∃ (locals locals' : List Mat) (out : Mat),
      setup image100 3 = .ok locals ∧
      groupRound copyPixels 3 image100.rows image100.cols (mkInput 6 128) locals =
        .ok (locals', out) ∧
      out.rows = image100.rows ∧ out.cols = image100.cols ∧
      out.channels = (if (mkInput 6 128).choice = 5 ∧ (mkInput 6 128).p1 ≠ 0 then 3 else 1) ∧
      out.data.length = image100.rows * image100.cols * out.channels) ∧
    (∀ (blocks blocks' : List Mat) (out : Mat),
      groupRound copyPixels 3 image100.rows image100.cols (mkInput 6 128) blocks =
        .ok (blocks', out) →
      out.rows = image100.rows ∧ out.cols = image100.cols ∧
      out.channels = (if (mkInput 6 128).choice = 5 ∧ (mkInput 6 128).p1 ≠ 0 then 3 else 1) ∧
      out.data.length = image100.rows * image100.cols * out.channels) :=
  C5_channel_changed copyPixels image100 3 (mkInput 6 128) (by decide) (by decide)
    (by decide) rfl (List.length_replicate 600 0) (Or.inr (Or.inr (Or.inl rfl)))

/-! ### Geometric rescale -/

theorem truncScaled_eq_floor (n : Nat) (f : Factor) (hnum : 0 ≤ f.num) :
    truncScaled n f = ⌊(n : ℚ) * f.toRat⌋ := by
  unfold truncScaled Factor.toRat
  rw [Int.tdiv_eq_ediv (by positivity) (by positivity), ← Rat.floor_intCast_div_natCast]
  congr 1
  push_cast
  ring

theorem truncScaled_nonneg (n : Nat) (f : Factor) (hnum : 0 ≤ f.num) :
    0 ≤ truncScaled n f :=
  Int.tdiv_nonneg (by positivity) (by positivity)

/-- C4: in operation 3, for a factor `f >= 0` (in particular 0.5, 1.0 and 2.0), once
`resize` has returned on rank 0, the output image the root allocates has
`floor(rows * f)` rows, `floor(cols * f)` columns and 3 channels. -/
theorem C4_scaled_dimensions (P : Pixels) (size rows cols : Nat) (inp : RoundInput)
    (l scaled_image : Mat) (hop : inp.choice = 3) (hnum : 0 ≤ inp.scale_factor.num)
    (hres : resize P l inp.scale_factor = .ok scaled_image) :
    ∃ s : RankStep, round P ⟨0, size, rows, cols⟩ inp l = .ok s ∧
      (s.processed_image.rows : Int) = ⌊(rows : ℚ) * inp.scale_factor.toRat⌋ ∧
      (s.processed_image.cols : Int) = ⌊(cols : ℚ) * inp.scale_factor.toRat⌋ ∧
      s.processed_image.channels = 3 ∧ s.processed_image.wf := by
  have h1 := truncScaled_nonneg rows inp.scale_factor hnum
  have h2 := truncScaled_nonneg cols inp.scale_factor hnum
  have hround : round P ⟨0, size, rows, cols⟩ inp l = .ok ⟨l,
      Mat.create (truncScaled rows inp.scale_factor).toNat
        (truncScaled cols inp.scale_factor).toNat 3 P.uninit,
      [.Bcast 1 .MPI_DOUBLE],
      .fixed scaled_image.data
        (truncScaled2 (local_image_size rows cols size * 3) inp.scale_factor).toNat .MPI_BYTE,
      []⟩ := by
    simp [round, hop, hres, Mat.alloc, not_lt.mpr h1, not_lt.mpr h2, bind, Except.bind, pure,
      Except.pure]
  refine ⟨_, hround, ?_, ?_, rfl, ?_⟩
  · simp only [Mat.create]
    rw [Int.toNat_of_nonneg h1, truncScaled_eq_floor rows _ hnum]
  · simp only [Mat.create]
    rw [Int.toNat_of_nonneg h2, truncScaled_eq_floor cols _ hnum]
  · simp [Mat.wf, Mat.create]

/-- C4 at 3 rows, 3 columns and the factor 0.5: one row and one column. -/
theorem C4_scaled_dimensions_witness :
    ∃ s : RankStep, round copyPixels ⟨0, 1, 3, 3⟩ halfScale image9 = .ok s ∧
      (s.processed_image.rows : Int) = ⌊((3 : Nat) : ℚ) * halfScale.scale_factor.toRat⌋ ∧
      (s.processed_image.cols : Int) = ⌊((3 : Nat) : ℚ) * halfScale.scale_factor.toRat⌋ ∧
      s.processed_image.channels = 3 ∧ s.processed_image.wf :=
  C4_scaled_dimensions copyPixels 1 3 3 halfScale image9
    (Mat.create 2 2 3 (copyPixels.scaled 1 2 image9)) rfl (by decide) rfl

/-! ### Invalid choice and the session loop -/

theorem round_invalid (P : Pixels) (e : Env) (inp : RoundInput) (l : Mat)
    (h : inp.choice < 1 ∨ 8 < inp.choice) :
    round P e inp l =
      .ok ⟨l, Mat.noData, [], .skip, if e.rank = 0 then ["Invalid choice!"] else []⟩ := by
  have h1 : inp.choice ≠ 1 := by omega
  have h2 : inp.choice ≠ 2 := by omega
  have h3 : inp.choice ≠ 3 := by omega
  have h4 : inp.choice ≠ 4 := by omega
  have h5 : inp.choice ≠ 5 := by omega
  have h6 : inp.choice ≠ 6 := by omega
  have h7 : inp.choice ≠ 7 := by omega
  have h8 : inp.choice ≠ 8 := by omega
  simp [round, h1, h2, h3, h4, h5, h6, h7, h8, pure, Except.pure]

theorem groupRound_invalid (P : Pixels) (size rows cols : Nat) (inp : RoundInput)
    (locals : List Mat) (hne : locals ≠ []) (h : inp.choice < 1 ∨ 8 < inp.choice) :
    groupRound P size rows cols inp locals = .ok (locals, Mat.noData) := by
  unfold groupRound
  rw [roundAll_ok P size rows cols inp
    (fun k l => ⟨l, Mat.noData, [], .skip, if k = 0 then ["Invalid choice!"] else []⟩)
    locals 0 (fun k l _ => round_invalid P _ inp l h)]
  cases locals with
  | nil => exact absurd rfl hne
  | cons l ls =>
    have hmapk : (List.zipWith (fun (k : Nat) (l : Mat) =>
          (⟨l, Mat.noData, [], .skip, if k = 0 then ["Invalid choice!"] else []⟩ : RankStep))
        (List.range' 0 (l :: ls).length) (l :: ls)).map (fun s => s.local_image)
        = (l :: ls) := by
      rw [List.map_zipWith]
      have := zipWith_range_snd (fun l => l) (l :: ls) 0
      rw [List.map_id'] at this
      exact this
    simp only [bind, Except.bind]
    rw [hmapk]
    rfl

/-- C6 fails in the code: the choice 9 on a 1 x 1 image with one worker.  The `switch`
does what the claim says (no collective call, the block untouched, "Invalid choice!" on
rank 0) and the loop test lets a nonzero choice through; but before the broadcast rank 0
reads `image_operations[8]` outside the array (line 59), and after the `switch` it hands
the output image without data to `imwrite` (line 278), which rejects it.  The run stops
in that round and does not reach the further round. -/
theorem C6_invalid_choice_stops_run :
    round copyPixels ⟨0, 1, 1, 1⟩ (mkInput 9 0) image1 =
      .ok ⟨image1, Mat.noData, [], .skip, ["Invalid choice!"]⟩ ∧
    groupRound copyPixels 1 1 1 (mkInput 9 0) [image1] = .ok ([image1], Mat.noData) ∧
    operationName 9 = .error "image_operations[choice - 1]: read outside the array" ∧
    imwrite "out.jpg" Mat.noData = .error "imwrite: the image is empty" ∧
    run copyPixels image1 1 [mkInput 9 0, mkInput 1 1] =
      .error "image_operations[choice - 1]: read outside the array" ∧
    run copyPixels image1 1 [mkInput 0 0, mkInput 1 1] =
      .error "image_operations[choice - 1]: read outside the array" ∧
    run copyPixels image1 1 [mkInput 1 1, mkInput 1 1] =
      .ok [⟨1, "Gaussian Blur", [], ("out.jpg", image1)⟩,
        ⟨1, "Gaussian Blur", [], ("out.jpg", image1)⟩] :=
  ⟨rfl, rfl, rfl, rfl, rfl, rfl, rfl⟩

/-! ### What holds of the frame and of the fixed-size gather -/

/-- Operations 1, 2, 3, 5 and 8 leave the block of the rank as it was. -/
theorem round_keeps_block (P : Pixels) (e : Env) (inp : RoundInput) (l : Mat) (s : RankStep)
    (hop : inp.choice = 1 ∨ inp.choice = 2 ∨ inp.choice = 3 ∨ inp.choice = 5 ∨ inp.choice = 8)
    (hs : round P e inp l = .ok s) : s.local_image = l := by
  have key : (round P e inp l).map (fun s => s.local_image) =
      (round P e inp l).map (fun _ => l) := by
    rcases hop with h | h | h | h | h
    · simp [round, h, Except.map, pure, Except.pure]
    · cases hx : cvtColor P l .COLOR_BGR2GRAY <;>
        simp [round, h, hx, Except.map, pure, Except.pure, bind, Except.bind]
    · cases hx : resize P l inp.scale_factor with
      | error m => simp [round, h, hx, Except.map, bind, Except.bind]
      | ok v =>
        by_cases e0 : e.rank = 0
        · cases hy : Mat.alloc (truncScaled e.rows inp.scale_factor)
              (truncScaled e.cols inp.scale_factor) 3 P.uninit <;>
            simp [round, h, hx, hy, e0, Except.map, pure, Except.pure, bind, Except.bind]
        · simp [round, h, hx, e0, Except.map, pure, Except.pure, bind, Except.bind]
    · by_cases p0 : inp.p1 = 0
      · cases hx : cvtColor P l .COLOR_BGR2GRAY <;>
          simp [round, h, p0, hx, Except.map, pure, Except.pure, bind, Except.bind]
      · by_cases p1 : inp.p1 = 1
        · cases hx : cvtColor P l .COLOR_BGR2HSV <;>
            simp [round, h, p1, hx, Except.map, pure, Except.pure, bind, Except.bind]
        · by_cases p2 : inp.p1 = 2
          · cases hx : cvtColor P l .COLOR_BGR2Lab <;>
              simp [round, h, p2, hx, Except.map, pure, Except.pure, bind, Except.bind]
          · simp [round, h, p0, p1, p2, Except.map, pure, Except.pure, bind, Except.bind]
    · simp [round, h, Except.map, pure, Except.pure]
  rw [hs] at key
  simpa [Except.map] using key

/-- For operations 1, 5, 6, 7 and 8 the blocks of the fixed-size gather lie inside the
output image rank 0 allocated: `size * count <= rows * cols * channels`. -/
theorem round_fixed_gather_fits (P : Pixels) (size rows cols : Nat) (inp : RoundInput)
    (l : Mat) (s : RankStep)
    (hop : inp.choice = 1 ∨ inp.choice = 5 ∨ inp.choice = 6 ∨ inp.choice = 7 ∨ inp.choice = 8)
    (hs : round P ⟨0, size, rows, cols⟩ inp l = .ok s) :
    size * s.gather.sendcount ≤ s.processed_image.data.length := by
  have key : ∃ c : Nat, (round P ⟨0, size, rows, cols⟩ inp l).map (fun s =>
        (s.gather.sendcount, s.processed_image.data.length)) =
      (round P ⟨0, size, rows, cols⟩ inp l).map (fun _ =>
        (local_image_size rows cols size * c, rows * cols * c)) := by
    rcases hop with h | h | h | h | h
    · exact ⟨3, by
        simp [round, h, GatherCall.sendcount, Mat.create, Except.map, pure, Except.pure]⟩
    · by_cases p0 : inp.p1 = 0
      · exact ⟨1, by
          cases hx : cvtColor P l .COLOR_BGR2GRAY with
          | error m => simp [round, h, p0, hx, Except.map, bind, Except.bind]
          | ok v =>
            have hv : v.channels = 1 := by
              unfold cvtColor at hx
              split_ifs at hx
              · simp only [pure, Except.pure, Except.ok.injEq] at hx
                rw [← hx]; rfl
            simp [round, h, p0, hx, hv, GatherCall.sendcount, Mat.create, Except.map, pure,
              Except.pure, bind, Except.bind]⟩
      · by_cases p1 : inp.p1 = 1
        · exact ⟨3, by
            cases hx : cvtColor P l .COLOR_BGR2HSV with
            | error m => simp [round, h, p1, hx, Except.map, bind, Except.bind]
            | ok v =>
              have hv : v.channels = 3 := by
                unfold cvtColor at hx
                split_ifs at hx
                · simp only [pure, Except.pure, Except.ok.injEq] at hx
                  rw [← hx]; rfl
              simp [round, h, p1, hx, hv, GatherCall.sendcount, Mat.create, Except.map, pure,
                Except.pure, bind, Except.bind]⟩
        · by_cases p2 : inp.p1 = 2
          · exact ⟨3, by
              cases hx : cvtColor P l .COLOR_BGR2Lab with
              | error m => simp [round, h, p2, hx, Except.map, bind, Except.bind]
              | ok v =>
                have hv : v.channels = 3 := by
                  unfold cvtColor at hx
                  split_ifs at hx
                  · simp only [pure, Except.pure, Except.ok.injEq] at hx
                    rw [← hx]; rfl
                simp [round, h, p2, hx, hv, GatherCall.sendcount, Mat.create, Except.map,
                  pure, Except.pure, bind, Except.bind]⟩
          · exact ⟨1, by
              simp [round, h, p0, p1, p2, Mat.noData, GatherCall.sendcount, Mat.create,
                Except.map, pure, Except.pure, bind, Except.bind]⟩
    · exact ⟨1, by
        by_cases hgt : l.channels > 1
        · cases hx : cvtColor P l .COLOR_BGR2GRAY <;>
            simp [round, h, hgt, hx, GatherCall.sendcount, Mat.create, Except.map, pure,
              Except.pure, bind, Except.bind]
        · simp [round, h, hgt, GatherCall.sendcount, Mat.create, Except.map, pure,
            Except.pure, bind, Except.bind]⟩
    · exact ⟨1, by
        by_cases hgt : l.channels > 1
        · cases hx : cvtColor P l .COLOR_BGR2GRAY with
          | error m => simp [round, h, hgt, hx, Except.map, bind, Except.bind]
          | ok v =>
            cases hy : adaptiveThreshold P v inp.p1 inp.p2 <;>
              simp [round, h, hgt, hx, hy, GatherCall.sendcount, Mat.create, Except.map, pure,
                Except.pure, bind, Except.bind]
        · cases hy : adaptiveThreshold P l inp.p1 inp.p2 <;>
            simp [round, h, hgt, hy, GatherCall.sendcount, Mat.create, Except.map, pure,
              Except.pure, bind, Except.bind]⟩
    · exact ⟨3, by
        simp [round, h, GatherCall.sendcount, Mat.create, Except.map, pure, Except.pure]⟩
  obtain ⟨c, key⟩ := key
  rw [hs] at key
  simp only [Except.map, Except.ok.injEq, Prod.mk.injEq] at key
  rw [key.1, key.2]
  exact gather_fits rows cols size c

/-! ### Failing runs -/

/-- C8 fails in the code: histogram equalization (choice 4) on a 1 x 1 image with one
worker replaces the worker's 3-channel block `[10, 20, 30]` by a 1-channel block; a blur
(choice 1) that runs alone goes through, the same blur after choice 4 reads 3 bytes
from a 1-byte buffer, and choice 4 after choice 4 is rejected by `cvtColor`. -/
theorem C8_block_overwritten :
    setup image1 1 = .ok [image1] ∧
    groupRound copyPixels 1 1 1 (mkInput 4 0) [image1] =
      .ok ([⟨1, 1, 1, [10]⟩], ⟨1, 1, 1, [10]⟩) ∧
    run copyPixels image1 1 [mkInput 1 1] =
      .ok [⟨1, "Gaussian Blur", [], ("out.jpg", image1)⟩] ∧
    run copyPixels image1 1 [mkInput 4 0, mkInput 1 1, mkInput 0 0] =
      .error "MPI_Gather: read past the end of a send buffer" ∧
    run copyPixels image1 1 [mkInput 4 0, mkInput 4 0, mkInput 0 0] =
      .error "cvtColor: invalid number of channels in input image" :=
  ⟨rfl, rfl, rfl, rfl, rfl⟩

/-- C10 fails in the code: a 3 x 3 image, one worker, scaling by 0.5.  The gather count is
`trunc(27 * 0.25) = 6` bytes, the output image is `1 x 1 x 3`, 3 bytes, and the gather
writes past its end. -/
theorem C10_scaled_gather_overflow :
    setup image9 1 = .ok [image9] ∧
    (∃ s : RankStep, round copyPixels ⟨0, 1, 3, 3⟩ halfScale image9 = .ok s ∧
      s.gather.sendcount = 6 ∧ s.processed_image.data.length = 3 ∧
      ¬ (1 * s.gather.sendcount ≤ s.processed_image.data.length)) ∧
    run copyPixels image9 1 [halfScale] =
      .error "MPI_Gather: write past the end of the receive buffer" :=
  ⟨rfl, ⟨_, rfl, rfl, rfl, by decide⟩, rfl⟩

/-! ### The collective calls are the same on every rank -/

/-- One round on two ranks whose blocks have the same shape: the same collective calls
(or the same exception), and blocks of the same shape afterwards. -/
theorem round_calls_congr (P : Pixels) (size rows cols : Nat) (inp : RoundInput)
    (k1 k2 : Nat) (l1 l2 : Mat) (hr : l1.rows = l2.rows) (hc : l1.cols = l2.cols)
    (hch : l1.channels = l2.channels) :
    (round P ⟨k1, size, rows, cols⟩ inp l1).map (fun s =>
        (s.calls, s.local_image.rows, s.local_image.cols, s.local_image.channels)) =
      (round P ⟨k2, size, rows, cols⟩ inp l2).map (fun s =>
        (s.calls, s.local_image.rows, s.local_image.cols, s.local_image.channels)) := by
  obtain ⟨r1, c1, ch1, d1⟩ := l1
  obtain ⟨r2, c2, ch2, d2⟩ := l2
  simp only at hr hc hch
  subst hr hc hch
  by_cases h1 : inp.choice = 1
  · simp [round, h1, RankStep.calls, GatherCall.signature, Except.map, pure, Except.pure]
  by_cases h2 : inp.choice = 2
  · by_cases hch : ch1 = 3 ∨ ch1 = 4
    · simp [round, h2, cvtColor, hch, RankStep.calls, GatherCall.signature, Except.map, pure,
        Except.pure, bind, Except.bind]
    · simp [round, h2, cvtColor, hch, RankStep.calls, GatherCall.signature, Except.map, pure,
        Except.pure, bind, Except.bind, throw, throwThe, MonadExceptOf.throw]
  by_cases h3 : inp.choice = 3
  · by_cases hf : inp.scale_factor.num ≤ 0 ∨ inp.scale_factor.den = 0
    · simp [round, h3, resize, hf, Except.map, bind, Except.bind, throw, throwThe,
        MonadExceptOf.throw]
    · by_cases hd : cvRound ((r1 : Int) * inp.scale_factor.num) inp.scale_factor.den ≤ 0 ∨
          cvRound ((c1 : Int) * inp.scale_factor.num) inp.scale_factor.den ≤ 0
      · simp [round, h3, resize, hf, hd, Except.map, bind, Except.bind, throw, throwThe,
          MonadExceptOf.throw]
      · have hnum : 0 ≤ inp.scale_factor.num := by
          have := not_or.mp hf
          omega
        have a1 := truncScaled_nonneg rows inp.scale_factor hnum
        have a2 := truncScaled_nonneg cols inp.scale_factor hnum
        by_cases e1 : k1 = 0 <;> by_cases e2 : k2 = 0 <;>
          simp [round, h3, resize, hf, hd, e1, e2, Mat.alloc, not_lt.mpr a1, not_lt.mpr a2,
            RankStep.calls, GatherCall.signature, Except.map, bind, Except.bind, pure,
            Except.pure]
  by_cases h4 : inp.choice = 4
  · by_cases hch : ch1 = 3 ∨ ch1 = 4
    · simp [round, h4, cvtColor, equalizeHist, Mat.create, hch, RankStep.calls,
        GatherCall.signature, Except.map, pure, Except.pure, bind, Except.bind]
    · simp [round, h4, cvtColor, hch, RankStep.calls, GatherCall.signature, Except.map, pure,
        Except.pure, bind, Except.bind, throw, throwThe, MonadExceptOf.throw]
  by_cases h5 : inp.choice = 5
  · by_cases hch : ch1 = 3 ∨ ch1 = 4
    · by_cases p0 : inp.p1 = 0
      · simp [round, h5, cvtColor, Mat.create, hch, p0, RankStep.calls,
          GatherCall.signature, Except.map, pure, Except.pure, bind, Except.bind]
      · by_cases p1 : inp.p1 = 1
        · simp [round, h5, cvtColor, Mat.create, hch, p1, RankStep.calls,
            GatherCall.signature, Except.map, pure, Except.pure, bind, Except.bind]
        · by_cases p2 : inp.p1 = 2
          · simp [round, h5, cvtColor, Mat.create, hch, p2, RankStep.calls,
              GatherCall.signature, Except.map, pure, Except.pure, bind, Except.bind]
          · simp [round, h5, Mat.noData, p0, p1, p2, RankStep.calls,
              GatherCall.signature, Except.map, pure, Except.pure, bind, Except.bind]
    · by_cases p0 : inp.p1 = 0
      · simp [round, h5, cvtColor, hch, p0, Except.map, bind, Except.bind, throw, throwThe,
          MonadExceptOf.throw]
      · by_cases p1 : inp.p1 = 1
        · simp [round, h5, cvtColor, hch, p1, Except.map, bind, Except.bind, throw,
            throwThe, MonadExceptOf.throw]
        · by_cases p2 : inp.p1 = 2
          · simp [round, h5, cvtColor, hch, p2, Except.map, bind, Except.bind, throw,
              throwThe, MonadExceptOf.throw]
          · simp [round, h5, Mat.noData, p0, p1, p2, RankStep.calls,
              GatherCall.signature, Except.map, pure, Except.pure, bind, Except.bind]
  by_cases h6 : inp.choice = 6
  · by_cases hgt : ch1 > 1
    · by_cases hch : ch1 = 3 ∨ ch1 = 4
      · simp [round, h6, cvtColor, Mat.create, hch, hgt, RankStep.calls,
          GatherCall.signature, Except.map, pure, Except.pure, bind, Except.bind]
      · simp [round, h6, cvtColor, hch, hgt, Except.map, bind, Except.bind, throw, throwThe,
          MonadExceptOf.throw]
    · simp [round, h6, hgt, RankStep.calls, GatherCall.signature, Except.map, pure,
        Except.pure, bind, Except.bind]
  by_cases h7 : inp.choice = 7
  · by_cases hgt : ch1 > 1
    · by_cases hch : ch1 = 3 ∨ ch1 = 4
      · simp [round, h7, cvtColor, adaptiveThreshold, Mat.create, hch, hgt, RankStep.calls,
          GatherCall.signature, Except.map, pure, Except.pure, bind, Except.bind]
      · simp [round, h7, cvtColor, hch, hgt, Except.map, bind, Except.bind, throw, throwThe,
          MonadExceptOf.throw]
    · by_cases hone : ch1 = 1
      · simp [round, h7, hgt, hone, adaptiveThreshold, Mat.create, RankStep.calls,
          GatherCall.signature, Except.map, pure, Except.pure, bind, Except.bind]
      · simp [round, h7, hgt, hone, adaptiveThreshold, Except.map, pure, Except.pure, bind,
          Except.bind, throw, throwThe, MonadExceptOf.throw]
  by_cases h8 : inp.choice = 8
  · simp [round, h8, RankStep.calls, GatherCall.signature, Except.map, pure, Except.pure]
  simp [round, h1, h2, h3, h4, h5, h6, h7, h8, RankStep.calls, GatherCall.signature,
    Except.map, pure, Except.pure]

theorem round_bcasts (P : Pixels) (e : Env) (inp : RoundInput) (l : Mat) (s : RankStep)
    (hs : round P e inp l = .ok s) :
    s.bcasts =
      if inp.choice = 1 ∨ inp.choice = 5 ∨ inp.choice = 6 ∨ inp.choice = 8 then
        [.Bcast 1 .MPI_INT]
      else if inp.choice = 2 ∨ inp.choice = 7 then [.Bcast 1 .MPI_INT, .Bcast 1 .MPI_INT]
      else if inp.choice = 3 then [.Bcast 1 .MPI_DOUBLE]
      else [] := by
  have key : (round P e inp l).map (fun s => s.bcasts) =
      (round P e inp l).map (fun _ =>
        if inp.choice = 1 ∨ inp.choice = 5 ∨ inp.choice = 6 ∨ inp.choice = 8 then
          [Collective.Bcast 1 .MPI_INT]
        else if inp.choice = 2 ∨ inp.choice = 7 then [.Bcast 1 .MPI_INT, .Bcast 1 .MPI_INT]
        else if inp.choice = 3 then [.Bcast 1 .MPI_DOUBLE]
        else []) := by
    by_cases h1 : inp.choice = 1
    · simp [round, h1, Except.map, pure, Except.pure]
    by_cases h2 : inp.choice = 2
    · cases hx : cvtColor P l .COLOR_BGR2GRAY <;>
        simp [round, h2, hx, Except.map, pure, Except.pure, bind, Except.bind]
    by_cases h3 : inp.choice = 3
    · cases hx : resize P l inp.scale_factor with
      | error m => simp [round, h3, hx, Except.map, bind, Except.bind]
      | ok v =>
        by_cases e0 : e.rank = 0
        · cases hy : Mat.alloc (truncScaled e.rows inp.scale_factor)
              (truncScaled e.cols inp.scale_factor) 3 P.uninit <;>
            simp [round, h3, hx, hy, e0, Except.map, pure, Except.pure, bind, Except.bind]
        · simp [round, h3, hx, e0, Except.map, pure, Except.pure, bind, Except.bind]
    by_cases h4 : inp.choice = 4
    · cases hx : cvtColor P l .COLOR_BGR2GRAY with
      | error m => simp [round, h4, hx, Except.map, bind, Except.bind]
      | ok v =>
        cases hy : equalizeHist P v <;>
          simp [round, h4, hx, hy, Except.map, pure, Except.pure, bind, Except.bind]
    by_cases h5 : inp.choice = 5
    · by_cases p0 : inp.p1 = 0
      · cases hx : cvtColor P l .COLOR_BGR2GRAY <;>
          simp [round, h5, p0, hx, Except.map, pure, Except.pure, bind, Except.bind]
      · by_cases p1 : inp.p1 = 1
        · cases hx : cvtColor P l .COLOR_BGR2HSV <;>
            simp [round, h5, p1, hx, Except.map, pure, Except.pure, bind, Except.bind]
        · by_cases p2 : inp.p1 = 2
          · cases hx : cvtColor P l .COLOR_BGR2Lab <;>
              simp [round, h5, p2, hx, Except.map, pure, Except.pure, bind, Except.bind]
          · simp [round, h5, p0, p1, p2, Except.map, pure, Except.pure, bind, Except.bind]
    by_cases h6 : inp.choice = 6
    · by_cases hgt : l.channels > 1
      · cases hx : cvtColor P l .COLOR_BGR2GRAY <;>
          simp [round, h6, hgt, hx, Except.map, pure, Except.pure, bind, Except.bind]
      · simp [round, h6, hgt, Except.map, pure, Except.pure, bind, Except.bind]
    by_cases h7 : inp.choice = 7
    · by_cases hgt : l.channels > 1
      · cases hx : cvtColor P l .COLOR_BGR2GRAY with
        | error m => simp [round, h7, hgt, hx, Except.map, bind, Except.bind]
        | ok v =>
          cases hy : adaptiveThreshold P v inp.p1 inp.p2 <;>
            simp [round, h7, hgt, hx, hy, Except.map, pure, Except.pure, bind, Except.bind]
      · cases hy : adaptiveThreshold P l inp.p1 inp.p2 <;>
          simp [round, h7, hgt, hy, Except.map, pure, Except.pure, bind, Except.bind]
    by_cases h8 : inp.choice = 8
    · simp [round, h8, Except.map, pure, Except.pure]
    simp [round, h1, h2, h3, h4, h5, h6, h7, h8, Except.map, pure, Except.pure]
  rw [hs] at key
  simpa [Except.map] using key

/-- C7 fails in the code: a 6 x 3 image, 2 workers, scaling by 0.5.  After the broadcast
of the choice both ranks make the same calls, the broadcast of one `double` and a gather
of 6 bytes, and each has the 12 bytes of its scaled block to send from; at the root the
two blocks need 12 bytes and the output image has 9, so the gather fails on rank 0 alone
and the run ends in the first round.  Likewise for the choice 9: the `switch` of rank 1
makes no collective call, while rank 0 alone fails at line 59 before the broadcast. -/
theorem C7_root_leaves_step :
    setup image18 2 =
      .ok [⟨3, 3, 3, List.range' 0 27⟩, ⟨3, 3, 3, List.range' 27 27⟩] ∧
    (round copyPixels ⟨0, 2, 6, 3⟩ halfScale ⟨3, 3, 3, List.range' 0 27⟩).map RankStep.calls =
      .ok [.Bcast 1 .MPI_DOUBLE, .Gather 6 .MPI_BYTE 6 .MPI_BYTE] ∧
    (round copyPixels ⟨1, 2, 6, 3⟩ halfScale ⟨3, 3, 3, List.range' 27 27⟩).map RankStep.calls =
      .ok [.Bcast 1 .MPI_DOUBLE, .Gather 6 .MPI_BYTE 6 .MPI_BYTE] ∧
    (round copyPixels ⟨1, 2, 6, 3⟩ halfScale ⟨3, 3, 3, List.range' 27 27⟩).map
      (fun s => (s.gather.sendcount, s.gather.sendbuf.length)) = .ok (6, 12) ∧
    (round copyPixels ⟨0, 2, 6, 3⟩ halfScale ⟨3, 3, 3, List.range' 0 27⟩).map
      (fun s => (s.gather.sendcount, s.gather.sendbuf.length, 2 * s.gather.sendcount,
        s.processed_image.data.length)) = .ok (6, 12, 12, 9) ∧
    run copyPixels image18 2 [halfScale, mkInput 1 1] =
      .error "MPI_Gather: write past the end of the receive buffer" ∧
    (round copyPixels ⟨1, 2, 6, 3⟩ (mkInput 9 0) ⟨3, 3, 3, List.range' 27 27⟩).map
      RankStep.calls = .ok [] ∧
    run copyPixels image18 2 [mkInput 9 0, mkInput 1 1] =
      .error "image_operations[choice - 1]: read outside the array" :=
  ⟨rfl, rfl, rfl, rfl, rfl, rfl, rfl, rfl⟩

end PIP
